import Mathlib

/-!
# Verification of the gcfg configuration-aggregation library

A shallow embedding, in Lean 4, of the core algorithms of the gcfg Go
library: the merge engine (`internal/maps/merge.go`), the nested-map
navigator (`internal/maps` FindNestedMap), the environment-variable
normalizer (`internal/env`), the deep-clone utility
(`internal/reflection/clone.go`) and the reflective struct binder and
unbinder (`internal/maps/bind.go`).

Go values of type `map[string]any` are embedded as association lists of
`String × GoVal`; a Go map update `m[k] = v` is `insertGo` (replace the
binding in place if the key is present, append otherwise).  Go's map
iteration order is unspecified, so functions that range over a map take
the entry list in an explicit order and theorems that need
order-independence assume the relevant keys are distinct.
-/

namespace GCfg

/-! ## Go string primitives

Character-level models of the `strings` / `strconv` standard-library
functions used by the sources.  Lowercasing and whitespace trimming are
modelled on the ASCII range (the library's keys are environment-variable
and JSON-style names), matching `unicode.ToLower` / `unicode.IsSpace`
there.
-/

/-- `strings.ToLower` restricted to ASCII. -/
def goToLowerStr (s : String) : String :=
  String.mk (s.toList.map Char.toLower)

/-- `strings.TrimSpace`: drop leading and trailing whitespace. -/
def goTrimStr (s : String) : String :=
  String.mk (((s.toList.dropWhile Char.isWhitespace).reverse.dropWhile
      Char.isWhitespace).reverse)

/-- Does the character list `p` occur at the head of `s`? -/
def leadsChar : List Char → List Char → Bool
  | [], _ => true
  | _ :: _, [] => false
  | a :: as, b :: bs => a == b && leadsChar as bs

/-- Index of the first occurrence of `p` in `s`, if any. -/
def findOcc (p : List Char) : List Char → Option Nat
  | [] => if leadsChar p [] then some 0 else none
  | c :: rest =>
    if leadsChar p (c :: rest) then some 0
    else (findOcc p rest).map (· + 1)

/-- `strings.Split` on character lists, for a nonempty separator: cut
    around the leftmost occurrences.  Each step consumes at least one
    character, so fuel `s.length + 1` always reaches the `none` base. -/
def goSplitF (sep : List Char) : Nat → List Char → List (List Char)
  | 0, s => [s]
  | fuel + 1, s =>
    match findOcc sep s with
    | none => [s]
    | some i => s.take i :: goSplitF sep fuel (s.drop (i + sep.length))

/-- `strings.Split` on character lists (nonempty separator handled by
    `goSplitF` with sufficient fuel). -/
def goSplitL (sep s : List Char) : List (List Char) :=
  if sep = [] then [s] else goSplitF sep (s.length + 1) s

/-- `strings.Split s sep`.  An empty separator explodes `s` into
    one-character strings (the UTF-8-rune behavior of Go, on our
    character model). -/
def goSplit (s sep : String) : List String :=
  if sep = "" then s.toList.map (fun c => String.mk [c])
  else (goSplitL sep.toList s.toList).map String.mk

/-- `strings.Replace(s, old, new, -1)` for nonempty `old`: replace the
    leftmost occurrences; fuel `s.length + 1` always suffices. -/
def goReplaceF (old new : List Char) : Nat → List Char → List Char
  | 0, s => s
  | fuel + 1, s =>
    match findOcc old s with
    | none => s
    | some i => s.take i ++ new ++ goReplaceF old new fuel (s.drop (i + old.length))

/-- `strings.Replace(s, old, new, -1)` on character lists, nonempty `old`. -/
def goReplaceL (old new s : List Char) : List Char :=
  if old = [] then s else goReplaceF old new (s.length + 1) s

/-- `strings.ReplaceAll s old new`.  An empty `old` matches at the start
    of the string and after each rune. -/
def goReplaceAll (s old new : String) : String :=
  if old = "" then
    String.mk (new.toList ++ (s.toList.flatMap (fun c => c :: new.toList)))
  else String.mk (goReplaceL old.toList new.toList s.toList)

/-- `strings.HasPrefix`. -/
def goStartsWith (s pre : String) : Bool :=
  leadsChar pre.toList s.toList

/-- `strings.TrimPrefix`. -/
def goTrimPre (s pre : String) : String :=
  if goStartsWith s pre then String.mk (s.toList.drop pre.toList.length) else s

/-- Key normalization used by the merge engine:
    `strings.ToLower(strings.TrimSpace(k))`. -/
def goNorm (s : String) : String :=
  goToLowerStr (goTrimStr s)

/-! ## Dynamic Go values (`any`) and the map model -/

/-- Width tag of a Go integer type: the platform-sized kind or a sized one. -/
inductive IW where
  | iw | i8 | i16 | i32 | i64
deriving DecidableEq, Repr

/-- Width tag of a Go floating-point type. -/
inductive FW where
  | f32 | f64
deriving DecidableEq, Repr

/-- A dynamically typed Go value (`any`) as stored in a configuration
    mapping: booleans, strings, sized integers, unsigned integers,
    floating-point values (payload modelled as a rational), durations,
    `nil`, nested `map[string]any` and `[]any`. -/
inductive GoVal where
  | vbool (b : Bool)
  | vstr (s : String)
  | vint (w : IW) (i : Int)
  | vuint (w : IW) (n : Nat)
  | vfloat (w : FW) (q : Rat)
  | vdur (i : Int)
  | vnil
  | vmap (entries : List (String × GoVal))
  | vslice (elems : List GoVal)

/-- `map[string]any`, with entries in an explicit order. -/
abbrev GoMap := List (String × GoVal)

/-- Map read `m[k]`. -/
def lookupGo : GoMap → String → Option GoVal
  | [], _ => none
  | (k0, v0) :: rest, k => if k0 = k then some v0 else lookupGo rest k

/-- Map write `m[k] = v`: replace in place, else append. -/
def insertGo : GoMap → String → GoVal → GoMap
  | [], k, v => [(k, v)]
  | (k0, v0) :: rest, k, v =>
    if k0 = k then (k, v) :: rest else (k0, v0) :: insertGo rest k v

/-- Is this value a `map[string]any`? (the `val.(map[string]any)` type
    assertion). -/
def isVMap : GoVal → Bool
  | .vmap _ => true
  | _ => false

/-- The `val.(map[string]any)` type assertion with its extracted value. -/
def asMap : GoVal → Option GoMap
  | .vmap m => some m
  | _ => none

/-- Is the dynamic value Go's `nil`? (the `v == nil` test). -/
def isVNil : GoVal → Bool
  | .vnil => true
  | _ => false

/-! ## Merge engine (`internal/maps/merge.go`) -/

/-- The body of `maps.Merge`'s loop for one source entry `k ↦ val`:
    skip if the lower-cased trimmed key is empty, recurse (over the
    source submap's entries) when both sides hold maps, overwrite
    otherwise. -/
def mergeStep (dst : GoMap) (k : String) (val : GoVal) : GoMap :=
  let nk := goNorm k
  if nk = "" then dst
  else
    match lookupGo dst nk with
    | some dv =>
      match asMap dv with
      | some dm =>
        match hsm : asMap val with
        | some sm =>
          insertGo dst nk
            (.vmap (sm.attach.foldl (fun d kv => mergeStep d kv.1.1 kv.1.2) dm))
        | none => insertGo dst nk val
      | none => insertGo dst nk val
    | none => insertGo dst nk val
termination_by sizeOf val
decreasing_by
  simp_wf
  obtain ⟨⟨k2, v2⟩, hmem⟩ := kv
  have h1 := List.sizeOf_lt_of_mem hmem
  cases val <;> simp [asMap] at hsm
  subst hsm
  simp at h1 ⊢
  omega

/-- `maps.Merge`: fold the loop body over the source entries in the
    given order (Go ranges over the map in an unspecified order). -/
def goMerge (dst src : GoMap) : GoMap :=
  src.foldl (fun d kv => mergeStep d kv.1 kv.2) dst

/-- The body of `maps.MergeWithoutOverride`'s loop for one source entry:
    skip empty normalized keys; when the key exists recurse only if both
    sides hold maps and otherwise leave the destination untouched; add
    the entry when the key is absent. -/
def mergeStepWO (dst : GoMap) (k : String) (val : GoVal) : GoMap :=
  let nk := goNorm k
  if nk = "" then dst
  else
    match lookupGo dst nk with
    | some dv =>
      match asMap dv with
      | some dm =>
        match hsm : asMap val with
        | some sm =>
          insertGo dst nk
            (.vmap (sm.attach.foldl (fun d kv => mergeStepWO d kv.1.1 kv.1.2) dm))
        | none => dst
      | none => dst
    | none => insertGo dst nk val
termination_by sizeOf val
decreasing_by
  simp_wf
  obtain ⟨⟨k2, v2⟩, hmem⟩ := kv
  have h1 := List.sizeOf_lt_of_mem hmem
  cases val <;> simp [asMap] at hsm
  subst hsm
  simp at h1 ⊢
  omega

/-- `maps.MergeWithoutOverride`: fold the loop body over the source
    entries in the given order. -/
def goMergeWO (dst src : GoMap) : GoMap :=
  src.foldl (fun d kv => mergeStepWO d kv.1 kv.2) dst

/-- The value the override merge is expected to leave at a normalized key,
    given the destination's previous value there and the source value. -/
def expectedMerge (dv : Option GoVal) (val : GoVal) : GoVal :=
  match dv, val with
  | some (.vmap dm), .vmap sm => .vmap (goMerge dm sm)
  | _, _ => val

/-- The value the no-override merge is expected to leave at a normalized
    key, given the destination's previous value there and the source value. -/
def expectedMergeWO (dv : Option GoVal) (val : GoVal) : GoVal :=
  match dv, val with
  | some (.vmap dm), .vmap sm => .vmap (goMergeWO dm sm)
  | some dvv, _ => dvv
  | none, _ => val

/-- The nonempty normalized forms of a source map's keys, in order. -/
def normKeysNE (src : GoMap) : List String :=
  src.filterMap fun kv => if goNorm kv.1 = "" then none else some (goNorm kv.1)

/-! ## Nested-map navigator (`maps.FindNestedMap`) -/

/-- `maps.FindNestedMap`: walk `parts` from `m`; on an existing map entry
    descend, on an existing non-map entry return `none` without touching
    the tree, on a missing entry create an empty map when `create` is set.
    The first component is the whole tree after any creations (Go mutates
    `m` in place); the second is the found/created target mapping. -/
def goFind : GoMap → List String → Bool → GoMap × Option GoMap
  | m, [], _ => (m, some m)
  | m, p :: rest, create =>
    match lookupGo m p with
    | some v =>
      match rest, v with
      | [], .vmap fm => (m, some fm)
      | [], _ => (m, none)
      | q :: rest2, .vmap nm =>
        let r := goFind nm (q :: rest2) create
        (insertGo m p (.vmap r.1), r.2)
      | _ :: _, _ => (m, none)
    | none =>
      if create then
        let r := goFind [] rest create
        (insertGo m p (.vmap r.1), r.2)
      else (m, none)

/-- Pure navigation: the sub-mapping sitting at `parts`, descending only
    through map entries. -/
def mapAtPath : GoMap → List String → Option GoMap
  | m, [] => some m
  | m, p :: rest =>
    match lookupGo m p with
    | some (.vmap nm) => mapAtPath nm rest
    | _ => none

/-- Does some segment of `parts` resolve to an existing entry that is not
    a mapping?  (The "path is blocked" condition of the navigator.) -/
def blockedB : GoMap → List String → Bool
  | _, [] => false
  | m, p :: rest =>
    match lookupGo m p with
    | some (.vmap nm) => blockedB nm rest
    | some _ => true
    | none => false

/-! ## Nested-map construction (`env.BuildNestedMap`) -/

/-- The loop of `env.BuildNestedMap` over the already-split segments: the
    last segment receives the value; an intermediate segment is descended
    into if it holds a mapping, and otherwise (missing or holding any
    non-map value) is (re)set to a fresh mapping that is then descended. -/
def buildParts : GoMap → List String → GoVal → GoMap
  | m, [], _ => m
  | m, [p], v => insertGo m p v
  | m, p :: q :: rest2, v =>
    match lookupGo m p with
    | some (.vmap mm) => insertGo m p (.vmap (buildParts mm (q :: rest2) v))
    | some _ => insertGo m p (.vmap (buildParts [] (q :: rest2) v))
    | none => insertGo m p (.vmap (buildParts [] (q :: rest2) v))

/-- `env.BuildNestedMap`. -/
def buildNestedMap (data : GoMap) (key : String) (v : GoVal) (sep : String) : GoMap :=
  if sep = "" then insertGo data key v
  else buildParts data (goSplit key sep) v

/-- Pure navigation to the value stored at a nonempty segment path. -/
def lookupPath : GoMap → List String → Option GoVal
  | _, [] => none
  | m, [p] => lookupGo m p
  | m, p :: q :: rest2 =>
    match lookupGo m p with
    | some (.vmap nm) => lookupPath nm (q :: rest2)
    | _ => none

/-! ## Environment-variable normalizer (`internal/env/parse.go`) -/

/-- `strings.ToUpper` restricted to ASCII. -/
def goToUpperStr (s : String) : String :=
  String.mk (s.toList.map Char.toUpper)

/-- The deny-list of `env.unsafeEnvVars`. -/
def unsafeEnvVars : List String :=
  ["PATH", "HOME", "USER", "USERNAME", "LOGNAME", "SHELL", "PWD", "OLDPWD",
   "MAIL",
   "TERM", "LANG", "LC_ALL", "LC_CTYPE", "COLORTERM",
   "TMPDIR", "TMP", "TEMP",
   "SUDO_USER", "SUDO_UID", "SUDO_GID",
   "SSH_AUTH_SOCK", "SSH_AGENT_PID", "SSH_CLIENT", "SSH_CONNECTION",
   "SSH_TTY",
   "DISPLAY", "XAUTHORITY", "WAYLAND_DISPLAY",
   "HOSTNAME", "HOST", "COMPUTERNAME", "SESSION_MANAGER",
   "ZSH", "BASH", "PROMPT", "PS1", "PS2",
   "EDITOR", "VISUAL", "PAGER",
   "GITHUB_ACTION", "GITHUB_TOKEN", "CI"]

/-- `env.IsUnsafeVar`. -/
def isUnsafeVar (key : String) : Bool :=
  unsafeEnvVars.contains (goToUpperStr key)

/-- `objSep` of `internal/env`. -/
def objSep : String := ":"

/-- `envSep` of `internal/env`. -/
def envSep : String := "_"

/-- The loop body of `env.ParseVariables` for one variable, with the
    prefix already lower-cased and trimmed. -/
def parseOneVar (data : GoMap) (k v pre sep : String) (normalizeKey : Bool) :
    GoMap :=
  let key := goToLowerStr (goTrimStr k)
  if isUnsafeVar key then data
  else if pre ≠ "" ∧ goStartsWith key pre = false then data
  else
    let nk0 := if pre ≠ "" then goTrimPre key pre else key
    let nk1 := goReplaceAll nk0 sep objSep
    let data1 :=
      if normalizeKey then
        let nk2 := goReplaceAll nk1 envSep ""
        if sep ≠ "" then buildNestedMap data nk2 (.vstr v) objSep
        else insertGo data nk2 (.vstr v)
      else data
    if sep ≠ "" then buildNestedMap data1 key (.vstr v) sep
    else insertGo data1 key (.vstr v)

/-- `env.ParseVariables`, the variables supplied in an explicit iteration
    order. -/
def parseVariables (vars : List (String × String)) (pre sep : String)
    (normalizeKey : Bool) : GoMap :=
  let pre1 := goToLowerStr (goTrimStr pre)
  vars.foldl (fun data kv => parseOneVar data kv.1 kv.2 pre1 sep normalizeKey) []

/-- The path under which a surviving variable's original (lower-cased,
    trimmed) key is registered: its split on the configured separator. -/
def literalParts (k sep : String) : List String :=
  goSplit (goToLowerStr (goTrimStr k)) sep

/-- The path of the variable's compact alias when `normalizeKey` is set:
    prefix-stripped, separator replaced by the object separator, the
    underscore word-separator deleted, then split on the object separator. -/
def compactParts (k pre sep : String) : List String :=
  let key := goToLowerStr (goTrimStr k)
  let nk0 := if pre ≠ "" then goTrimPre key pre else key
  goSplit (goReplaceAll (goReplaceAll nk0 sep objSep) envSep "") objSep

/-- Boolean list-prefix test used to state path-collision side conditions. -/
def leadsStr : List String → List String → Bool
  | [], _ => true
  | _ :: _, [] => false
  | a :: as, b :: bs => a == b && leadsStr as bs

/-! ## Deep clone (`internal/reflection/clone.go`) with an explicit store

To speak about sharing of mutable containers, the configuration tree is
given a heap: every `map[string]any` and `[]any` lives at an address in a
`Store`, and values refer to containers by address.  `reflection.Clone`
walks a value; map and slice containers are rebuilt at freshly allocated
addresses with recursively cloned children, every other value is returned
as-is (the config tree built by the providers holds no pointers, so the
`reflect.Pointer` arm of the Go source is not exercised).  Fuel makes the
recursion total; on any acyclic store a fuel larger than the tree depth
suffices. -/

/-- A heap value: a scalar, or a reference to a container. -/
inductive SVal where
  | sscalar (s : String)
  | sref (a : Nat)

/-- A heap container: a mapping or a sequence. -/
inductive SNode where
  | smap (entries : List (String × SVal))
  | sslice (elems : List SVal)

/-- The heap: containers addressed by position; allocation appends. -/
abbrev Store := List SNode

/-- Mutating the container at address `a` (what external code does when it
    writes through a returned map or slice). -/
def storeSet (st : Store) (a : Nat) (nd : SNode) : Store := st.set a nd

mutual

/-- `reflection.Clone` on a store: scalars are returned as-is; a container
    reference is resolved, its children cloned, and a fresh container
    allocated at the end of the store. -/
def cloneVal : Nat → Store → SVal → Option (Store × SVal)
  | 0, _, _ => none
  | _ + 1, st, .sscalar s => some (st, .sscalar s)
  | f + 1, st, .sref a =>
    match st[a]? with
    | none => none
    | some (.smap es) =>
      match cloneEntries f st es with
      | none => none
      | some (st2, es2) => some (st2 ++ [.smap es2], .sref st2.length)
    | some (.sslice xs) =>
      match cloneElems f st xs with
      | none => none
      | some (st2, xs2) => some (st2 ++ [.sslice xs2], .sref st2.length)
termination_by f _ _ => (f, 0)

/-- Clone each value of a map's entries, threading the store. -/
def cloneEntries : Nat → Store → List (String × SVal) →
    Option (Store × List (String × SVal))
  | _, st, [] => some (st, [])
  | f, st, (k, v) :: rest =>
    match cloneVal f st v with
    | none => none
    | some (st2, v2) =>
      match cloneEntries f st2 rest with
      | none => none
      | some (st3, rest2) => some (st3, (k, v2) :: rest2)
termination_by f _ es => (f, es.length + 1)

/-- Clone each element of a slice, threading the store. -/
def cloneElems : Nat → Store → List SVal → Option (Store × List SVal)
  | _, st, [] => some (st, [])
  | f, st, v :: rest =>
    match cloneVal f st v with
    | none => none
    | some (st2, v2) =>
      match cloneElems f st2 rest with
      | none => none
      | some (st3, rest2) => some (st3, v2 :: rest2)
termination_by f _ xs => (f, xs.length + 1)

end

/-- The pure tree denoted by a value: what a reader (`Get`, `Find`,
    `Values`) observes through the store. -/
inductive Tree where
  | tscalar (s : String)
  | tmap (entries : List (String × Tree))
  | tslice (elems : List Tree)

mutual

/-- Read back the tree denoted by a value in a store. -/
def resolveVal : Nat → Store → SVal → Option Tree
  | 0, _, _ => none
  | _ + 1, _, .sscalar s => some (.tscalar s)
  | f + 1, st, .sref a =>
    match st[a]? with
    | none => none
    | some (.smap es) =>
      match resolveEntries f st es with
      | none => none
      | some ts => some (.tmap ts)
    | some (.sslice xs) =>
      match resolveElems f st xs with
      | none => none
      | some ts => some (.tslice ts)
termination_by f _ _ => (f, 0)

/-- Resolve each value of a map's entries. -/
def resolveEntries : Nat → Store → List (String × SVal) →
    Option (List (String × Tree))
  | _, _, [] => some []
  | f, st, (k, v) :: rest =>
    match resolveVal f st v with
    | none => none
    | some t =>
      match resolveEntries f st rest with
      | none => none
      | some ts => some ((k, t) :: ts)
termination_by f _ es => (f, es.length + 1)

/-- Resolve each element of a slice. -/
def resolveElems : Nat → Store → List SVal → Option (List Tree)
  | _, _, [] => some []
  | f, st, v :: rest =>
    match resolveVal f st v with
    | none => none
    | some t =>
      match resolveElems f st rest with
      | none => none
      | some ts => some (t :: ts)
termination_by f _ xs => (f, xs.length + 1)

end

/-- Every address this value refers to is below `n`. -/
def valRefLt : SVal → Nat → Bool
  | .sscalar _, _ => true
  | .sref a, n => a < n

/-- Every address this value refers to is at least `n`. -/
def valRefGe : SVal → Nat → Bool
  | .sscalar _, _ => true
  | .sref a, n => n ≤ a

/-- Every address a container's children refer to is below `n`. -/
def nodeRefsLtB : SNode → Nat → Bool
  | .smap es, n => es.all fun kv => valRefLt kv.2 n
  | .sslice xs, n => xs.all fun v => valRefLt v n

/-- Every address a container's children refer to is at least `n`. -/
def nodeRefsGeB : SNode → Nat → Bool
  | .smap es, n => es.all fun kv => valRefGe kv.2 n
  | .sslice xs, n => xs.all fun v => valRefGe v n

/-- The first `n` containers of the store only refer to addresses below
    `n`: the internal tree is closed within the pre-existing heap. -/
def closedPreB (st : Store) (n : Nat) : Bool :=
  (st.take n).all fun nd => nodeRefsLtB nd n

/-- Two stores agree on all addresses below `n`. -/
def agreesBelow (st st2 : Store) (n : Nat) : Prop :=
  ∀ a, a < n → st[a]? = st2[a]?

/-! ## Struct binder and unbinder (`internal/maps/bind.go`)

Destination record types are embedded as `RTy`: a basic kind (the
directly-coercible kinds: bool, string, sized signed/unsigned integers,
floats) or a struct with a list of fields, each carrying its Go name,
`json` tag, exportedness and anonymous (embedded) flag.  Container and
pointer destination kinds are outside the embedded universe (no claim
touches them); the corresponding arms of `setValue` are therefore not
modelled.  Record values are `RVal`, with the shape of their type. -/

/-- A directly-coercible destination kind, tagged with the Go type's
    width so error messages can name it (`dst.Type().Kind().String()`). -/
inductive BKind where
  | kbool
  | kstring
  | kint (w : IW)
  | kuint (w : IW)
  | kfloat (w : FW)
deriving DecidableEq, Repr

mutual

/-- A destination record type. -/
inductive RTy where
  | rbasic (k : BKind)
  | rstruct (fields : List RField)

/-- One declared field of a record type. -/
inductive RField where
  | fld (name jsonTag : String) (exported anonymous : Bool) (ty : RTy)

end

/-- Field name. -/
def fname : RField → String
  | .fld n _ _ _ _ => n

/-- Field `json` tag. -/
def ftag : RField → String
  | .fld _ t _ _ _ => t

/-- Is the field exported? -/
def fexp : RField → Bool
  | .fld _ _ e _ _ => e

/-- Is the field anonymous (embedded)? -/
def fanon : RField → Bool
  | .fld _ _ _ a _ => a

/-- Field type. -/
def fty : RField → RTy
  | .fld _ _ _ _ t => t

/-- A record value, shaped like its record type. -/
inductive RVal where
  | rvb (b : Bool)
  | rvs (s : String)
  | rvi (i : Int)
  | rvu (n : Nat)
  | rvf (q : Rat)
  | rvstruct (vals : List RVal)

/-- Bit width of a Go integer kind (`dst.Type().Bits()`; the platform
    `int`/`uint` are 64-bit). -/
def bitsOfIW : IW → Nat
  | .iw => 64
  | .i8 => 8
  | .i16 => 16
  | .i32 => 32
  | .i64 => 64

/-- `Kind().String()` of a signed integer kind. -/
def kindNameInt : IW → String
  | .iw => "int"
  | .i8 => "int8"
  | .i16 => "int16"
  | .i32 => "int32"
  | .i64 => "int64"

/-- `Kind().String()` of an unsigned integer kind. -/
def kindNameUint : IW → String
  | .iw => "uint"
  | .i8 => "uint8"
  | .i16 => "uint16"
  | .i32 => "uint32"
  | .i64 => "uint64"

/-- `Kind().String()` of a floating-point kind. -/
def kindNameFloat : FW → String
  | .f32 => "float32"
  | .f64 => "float64"

/-- The dynamic Go type name of a source value (`%T`). -/
def typeName : GoVal → String
  | .vbool _ => "bool"
  | .vstr _ => "string"
  | .vint w _ => kindNameInt w
  | .vuint w _ => kindNameUint w
  | .vfloat w _ => kindNameFloat w
  | .vdur _ => "time.Duration"
  | .vnil => "<nil>"
  | .vmap _ => "map[string]interface \x7b\x7d"
  | .vslice _ => "[]interface \x7b\x7d"

/-- The structured error values of `internal/maps/bind.go`. -/
inductive GoErr where
  | cannotSetStructFrom (srcType : String)
  | unsupportedKind (kind srcType : String)
  | cannotConvertToBool (srcType : String)
  | cannotConvertToInt64 (srcType : String)
  | cannotConvertToUint64 (srcType : String)
  | cannotConvertToFloat64 (srcType : String)
  | intOverflow (kind : String) (i : Int)
  | uintOverflow (kind : String) (n : Nat)
  | uint64Overflow (n : Nat)
  | negInt (w : IW) (i : Int)
  | negFloat (q : Rat)
  | parseSyntax (s : String)
  | parseRange (s : String)
  | fieldErr (name : String) (e : GoErr)
  | structFieldErr (name : String) (e : GoErr)
deriving DecidableEq, Repr

/-- `math.MaxInt64`. -/
def maxInt64 : Int := 9223372036854775807

/-- `math.MinInt64`. -/
def minInt64 : Int := -9223372036854775808

/-- `math.MaxInt64` as a natural number. -/
def maxInt64N : Nat := 9223372036854775807

/-- `math.MaxUint64`. -/
def maxUint64N : Nat := 18446744073709551615

/-- Numeric value of a digit string. -/
def digitsVal (ds : List Char) : Nat :=
  ds.foldl (fun acc c => acc * 10 + (c.toNat - '0'.toNat)) 0

/-- `strconv.ParseInt(s, 10, 64)`: optional sign, nonempty ASCII digits,
    result must fit a signed 64-bit integer. -/
def goParseInt64 (s : String) : Except GoErr Int :=
  let cs := s.toList
  let signed : Bool × List Char :=
    match cs with
    | '+' :: r => (false, r)
    | '-' :: r => (true, r)
    | r => (false, r)
  let ds := signed.2
  if ds.isEmpty ∨ ¬ ds.all Char.isDigit then .error (.parseSyntax s)
  else
    let v : Int := if signed.1 then -(digitsVal ds : Int) else (digitsVal ds : Int)
    if v < minInt64 ∨ maxInt64 < v then .error (.parseRange s) else .ok v

/-- `strconv.ParseUint(s, 10, 64)`: no sign, nonempty ASCII digits,
    result must fit an unsigned 64-bit integer. -/
def goParseUint64 (s : String) : Except GoErr Nat :=
  let ds := s.toList
  if ds.isEmpty ∨ ¬ ds.all Char.isDigit then .error (.parseSyntax s)
  else if maxUint64N < digitsVal ds then .error (.parseRange s)
  else .ok (digitsVal ds)

/-- `strconv.ParseBool`. -/
def goParseBool (s : String) : Except GoErr Bool :=
  if s = "1" ∨ s = "t" ∨ s = "T" ∨ s = "true" ∨ s = "TRUE" ∨ s = "True" then .ok true
  else if s = "0" ∨ s = "f" ∨ s = "F" ∨ s = "false" ∨ s = "FALSE" ∨ s = "False" then .ok false
  else .error (.parseSyntax s)

/-- Decimal parsing for `strconv.ParseFloat(s, 64)`, on the plain
    `[sign] digits [. digits]` forms (exponents and special values do not
    occur in the claims and are mapped to a syntax error). -/
def goParseFloat64 (s : String) : Except GoErr Rat :=
  let cs := s.toList
  let signed : Bool × List Char :=
    match cs with
    | '+' :: r => (false, r)
    | '-' :: r => (true, r)
    | r => (false, r)
  let intPart := signed.2.takeWhile Char.isDigit
  let rest := signed.2.dropWhile Char.isDigit
  match rest with
  | [] =>
    if intPart.isEmpty then .error (.parseSyntax s)
    else
      let q : Rat := (digitsVal intPart : Int)
      .ok (if signed.1 then -q else q)
  | '.' :: fracs =>
    if (intPart.isEmpty ∧ fracs.isEmpty) ∨ ¬ fracs.all Char.isDigit then
      .error (.parseSyntax s)
    else
      let q : Rat :=
        (digitsVal intPart : Int) +
          (digitsVal fracs : Int) / ((10 : Rat) ^ fracs.length)
      .ok (if signed.1 then -q else q)
  | _ => .error (.parseSyntax s)

/-- Truncation toward zero of a rational, the behavior of Go's numeric
    conversion from a float to an integer type. -/
def truncRat (q : Rat) : Int := q.num.tdiv (q.den : Int)

/-- `toBool` of bind.go: the dynamic type switch for boolean targets.
    `time.Duration` is a named type, so it is not matched by the
    `case int64` arm and falls to the default error. -/
def toBool : GoVal → Except GoErr Bool
  | .vbool b => .ok b
  | .vstr s => goParseBool s
  | .vfloat _ q => .ok (decide (q ≠ 0))
  | .vint _ i => .ok (decide (i ≠ 0))
  | .vuint _ n => .ok (decide (n ≠ 0))
  | v => .error (.cannotConvertToBool (typeName v))

/-- The `fmt.Sprintf("%v", val)` fallback of `toString`, abstracted to a
    fixed total rendering (no claim depends on the exact text of
    non-string values). -/
def goRender : GoVal → String
  | .vbool b => if b then "true" else "false"
  | .vstr s => s
  | .vint _ i => toString i
  | .vuint _ n => toString n
  | .vfloat _ q => toString q.num ++ "/" ++ toString q.den
  | .vdur i => toString i
  | .vnil => "<nil>"
  | .vmap _ => "map[...]"
  | .vslice _ => "[...]"

/-- `toString` of bind.go: strings pass through unchanged, anything else
    is rendered textually (there is no `[]byte` in the embedded universe). -/
def goToString : GoVal → String
  | .vstr s => s
  | v => goRender v

/-- `toInt64` of bind.go: the dynamic type switch for signed targets.
    Unsigned 64-bit sources larger than `math.MaxInt64` fail; floats
    truncate; strings go through `strconv.ParseInt(s, 10, 64)`. -/
def toInt64 : GoVal → Except GoErr Int
  | .vint _ i => .ok i
  | .vuint .iw n => if maxInt64N < n then .error (.uint64Overflow n) else .ok n
  | .vuint .i64 n => if maxInt64N < n then .error (.uint64Overflow n) else .ok n
  | .vuint _ n => .ok n
  | .vfloat _ q => .ok (truncRat q)
  | .vstr s => goParseInt64 s
  | .vdur i => .ok i
  | v => .error (.cannotConvertToInt64 (typeName v))

/-- `toUint64` of bind.go: negative signed integers and negative 64-bit
    floats are rejected with width-specific negative-value errors; note the
    Go source has no `float32` arm, so every `float32` source falls to the
    default conversion error. -/
def toUint64 : GoVal → Except GoErr Nat
  | .vuint _ n => .ok n
  | .vint w i => if i < 0 then .error (.negInt w i) else .ok i.toNat
  | .vfloat .f64 q => if q < 0 then .error (.negFloat q) else .ok (truncRat q).toNat
  | .vstr s => goParseUint64 s
  | v => .error (.cannotConvertToUint64 (typeName v))

/-- `toFloat64` of bind.go. -/
def toFloat64 : GoVal → Except GoErr Rat
  | .vfloat _ q => .ok q
  | .vint _ i => .ok (i : Rat)
  | .vuint _ n => .ok (n : Rat)
  | .vstr s => goParseFloat64 s
  | v => .error (.cannotConvertToFloat64 (typeName v))

/-- `withinIntRange` of bind.go. -/
def withinIntRange (i : Int) (bits : Nat) : Bool :=
  match bits with
  | 8 => decide (-128 ≤ i) && decide (i ≤ 127)
  | 16 => decide (-32768 ≤ i) && decide (i ≤ 32767)
  | 32 => decide (-2147483648 ≤ i) && decide (i ≤ 2147483647)
  | 64 => true
  | _ => true

/-- `withinUintRange` of bind.go. -/
def withinUintRange (n : Nat) (bits : Nat) : Bool :=
  match bits with
  | 8 => decide (n ≤ 255)
  | 16 => decide (n ≤ 65535)
  | 32 => decide (n ≤ 4294967295)
  | 64 => true
  | _ => true

/-- `setBasicKind` of bind.go: coercion into a directly-coercible
    destination kind, with the overflow guards. -/
def setBasicKind (k : BKind) (v : GoVal) : Except GoErr RVal :=
  match k with
  | .kbool =>
    match toBool v with
    | .error e => .error e
    | .ok b => .ok (.rvb b)
  | .kstring => .ok (.rvs (goToString v))
  | .kint w =>
    match toInt64 v with
    | .error e => .error e
    | .ok i =>
      if withinIntRange i (bitsOfIW w) then .ok (.rvi i)
      else .error (.intOverflow (kindNameInt w) i)
  | .kuint w =>
    match toUint64 v with
    | .error e => .error e
    | .ok n =>
      if withinUintRange n (bitsOfIW w) then .ok (.rvu n)
      else .error (.uintOverflow (kindNameUint w) n)
  | .kfloat _ =>
    match toFloat64 v with
    | .error e => .error e
    | .ok q => .ok (.rvf q)

/-- The zero value of a record type. -/
def zeroOf : RTy → RVal
  | .rbasic .kbool => .rvb false
  | .rbasic .kstring => .rvs ""
  | .rbasic (.kint _) => .rvi 0
  | .rbasic (.kuint _) => .rvu 0
  | .rbasic (.kfloat _) => .rvf 0
  | .rstruct fields => .rvstruct (fields.attach.map fun f => zeroOf (fty f.1))
termination_by ty => sizeOf ty
decreasing_by
  simp_wf
  have h1 := List.sizeOf_lt_of_mem f.2
  cases hf : f.1 with
  | fld nm tg ex an ty0 =>
    rw [hf] at h1
    simp [fty]
    simp at h1
    omega

/-- The lookup key declared by a field's `json` tag: the part before the
    first comma. -/
def tagHead (tag : String) : String :=
  (goSplit tag ",").headD ""

/-- The binder's field descriptor: Go field name and index path. -/
structure FieldInfo where
  name : String
  path : List Nat
deriving DecidableEq, Repr

/-- The field-descriptor map, with entries in insertion order. -/
abbrev FMap := List (String × FieldInfo)

/-- Read a descriptor-map entry. -/
def lookupFM : FMap → String → Option FieldInfo
  | [], _ => none
  | (k0, v0) :: rest, k => if k0 = k then some v0 else lookupFM rest k

/-- Go map write `out[k] = v`: replace in place, else append. -/
def insertOverFM : FMap → String → FieldInfo → FMap
  | [], k, v => [(k, v)]
  | (k0, v0) :: rest, k, v =>
    if k0 = k then (k, v) :: rest else (k0, v0) :: insertOverFM rest k v

/-- The guarded write `if _, exists := out[key]; !exists { out[key] = v }`. -/
def insertIfAbsentFM (m : FMap) (k : String) (v : FieldInfo) : FMap :=
  match lookupFM m k with
  | some _ => m
  | none => m ++ [(k, v)]

/-- `buildStructFieldMapRecursive` of bind.go: walk the declared fields in
    order, skip unexported ones, flatten anonymous struct fields through a
    recursive call carrying the extended index path, register a nonempty
    non-dash tag key with an unconditional write, and the lower-cased
    field name only if that key is still absent. -/
def buildSFMRec : List RField → List Nat → Nat → FMap → FMap
  | [], _, _, out => out
  | .fld nm tg ex an ty0 :: rest, indexPath, i, out =>
    if ex = false then buildSFMRec rest indexPath (i + 1) out
    else
      let currentPath := indexPath ++ [i]
      match an, ty0 with
      | true, .rstruct subfields =>
        buildSFMRec rest indexPath (i + 1)
          (buildSFMRec subfields currentPath 0 out)
      | true, .rbasic _ =>
        let key := goToLowerStr nm
        let out1 :=
          if tg ≠ "" ∧ tagHead tg ≠ "" ∧ tagHead tg ≠ "-" then
            insertOverFM out (tagHead tg) ⟨nm, currentPath⟩
          else out
        buildSFMRec rest indexPath (i + 1)
          (insertIfAbsentFM out1 key ⟨nm, currentPath⟩)
      | false, _ =>
        let key := goToLowerStr nm
        let out1 :=
          if tg ≠ "" ∧ tagHead tg ≠ "" ∧ tagHead tg ≠ "-" then
            insertOverFM out (tagHead tg) ⟨nm, currentPath⟩
          else out
        buildSFMRec rest indexPath (i + 1)
          (insertIfAbsentFM out1 key ⟨nm, currentPath⟩)
termination_by fields _ _ _ => sizeOf fields
decreasing_by all_goals simp_wf <;> omega

/-- `buildStructFieldMap` of bind.go. -/
def buildStructFieldMap (fields : List RField) : FMap :=
  buildSFMRec fields [] 0 []

/-- The record type reached by following an index path. -/
def tyAtPath : RTy → List Nat → Option RTy
  | ty, [] => some ty
  | .rstruct fields, i :: rest =>
    match fields[i]? with
    | some f => tyAtPath (fty f) rest
    | none => none
  | .rbasic _, _ :: _ => none

/-- The record value reached by following an index path
    (`getFieldByPath`; the embedded universe has no pointers to allocate). -/
def getAtPath : RVal → List Nat → Option RVal
  | r, [] => some r
  | .rvstruct vals, i :: rest =>
    match vals[i]? with
    | some v => getAtPath v rest
    | none => none
  | _, _ :: _ => none

/-- Writing back through an index path. -/
def setAtPath : RVal → List Nat → RVal → RVal
  | _, [], v => v
  | .rvstruct vals, i :: rest, v =>
    match vals[i]? with
    | some cur => .rvstruct (vals.set i (setAtPath cur rest v))
    | none => .rvstruct vals
  | r, _ :: _, _ => r

mutual

/-- `setValue` of bind.go on the embedded universe: a `nil` source zeroes
    the destination; a struct destination accepts a mapping and recurses
    through the descriptor map (with the lower-cased-key fallback of the
    nested path); a basic destination goes through `setBasicKind`.
    Container/pointer/interface destination kinds are outside the
    embedded universe. -/
def setValueR (ty : RTy) (cur : RVal) (v : GoVal) : Except GoErr RVal :=
  if isVNil v then .ok (zeroOf ty)
  else
    match ty with
    | .rbasic k => setBasicKind k v
    | .rstruct fields =>
      match hm : asMap v with
      | some m => bindStructEntries fields cur m
      | none => .error (.cannotSetStructFrom (typeName v))
termination_by sizeOf v
decreasing_by
  simp_wf
  cases v <;> simp_all [asMap]

/-- The nested-struct arm of `setValue`: iterate the source mapping's
    entries, look each key up in the descriptor map (first verbatim, then
    lower-cased), and assign through the field's index path; errors are
    wrapped with the field name. -/
def bindStructEntries (fields : List RField) (cur : RVal)
    (entries : List (String × GoVal)) : Except GoErr RVal :=
  match entries with
  | [] => .ok cur
  | (key, val) :: rest =>
    let fm := buildStructFieldMap fields
    let fi? : Option FieldInfo :=
      match lookupFM fm key with
      | some fi => some fi
      | none => lookupFM fm (goToLowerStr key)
    match fi? with
    | none => bindStructEntries fields cur rest
    | some fi =>
      match tyAtPath (.rstruct fields) fi.path with
      | none => bindStructEntries fields cur rest
      | some fldTy =>
        match getAtPath cur fi.path with
        | none => bindStructEntries fields cur rest
        | some sub =>
          match setValueR fldTy sub val with
          | .error e => .error (.structFieldErr fi.name e)
          | .ok newSub =>
            bindStructEntries fields (setAtPath cur fi.path newSub) rest
termination_by sizeOf entries
decreasing_by all_goals simp_wf <;> omega

end

/-- The loop of `maps.Bind`: each source entry whose key matches a
    descriptor entry verbatim (the top level has no lower-cased
    fallback) is assigned through `setValueR`; errors are wrapped with
    the field name; unknown keys are ignored. -/
def bindLoop (typeInfo : FMap) (fields : List RField) :
    GoMap → RVal → Except GoErr RVal
  | [], d => .ok d
  | (k, v) :: rest, d =>
    match lookupFM typeInfo k with
    | none => bindLoop typeInfo fields rest d
    | some fi =>
      match tyAtPath (.rstruct fields) fi.path with
      | none => bindLoop typeInfo fields rest d
      | some fldTy =>
        match getAtPath d fi.path with
        | none => bindLoop typeInfo fields rest d
        | some sub =>
          match setValueR fldTy sub v with
          | .error e => .error (.fieldErr fi.name e)
          | .ok newSub => bindLoop typeInfo fields rest (setAtPath d fi.path newSub)

/-- `maps.Bind` on the embedded universe: the destination is a struct
    value of the given field list. -/
def goBind (src : GoMap) (fields : List RField) (dest : RVal) :
    Except GoErr RVal :=
  bindLoop (buildStructFieldMap fields) fields src dest

/-- `getAnyFromValue` on a basic field: the dynamic Go value carried out
    of the record, tagged with the field's declared type.  An ill-shaped
    record value (impossible for values of the field's type) maps to nil. -/
def basicToGo (k : BKind) (v : RVal) : GoVal :=
  match k, v with
  | .kbool, .rvb b => .vbool b
  | .kstring, .rvs s => .vstr s
  | .kint w, .rvi i => .vint w i
  | .kuint w, .rvu n => .vuint w n
  | .kfloat w, .rvf q => .vfloat w q
  | _, _ => .vnil

/-- The mapping key a field is unbound under: its tag-declared name when
    present (nonempty, not `"-"`), else its verbatim Go name. -/
def keyOf (nm tg : String) : String :=
  if tg ≠ "" ∧ tagHead tg ≠ "" ∧ tagHead tg ≠ "-" then tagHead tg else nm

mutual

/-- `setMapFromStructRecursive` of bind.go: walk the fields in order,
    skip unexported ones, flatten anonymous struct fields into the same
    mapping, and write each remaining field under its tag-declared key
    (else its verbatim Go name). -/
def unbindStructFields : List RField → List RVal → GoMap → GoMap
  | [], _, m => m
  | _ :: _, [], m => m
  | .fld nm tg ex an ty0 :: fs, v :: vs, m =>
    if ex = false then unbindStructFields fs vs m
    else
      match an, ty0, v with
      | true, .rstruct subf, .rvstruct subv =>
        unbindStructFields fs vs (unbindStructFields subf subv m)
      | true, .rstruct subf, .rvb b =>
        unbindStructFields fs vs
          (insertGo m (keyOf nm tg) (goValOfField (.rstruct subf) (.rvb b)))
      | true, .rstruct subf, .rvs s =>
        unbindStructFields fs vs
          (insertGo m (keyOf nm tg) (goValOfField (.rstruct subf) (.rvs s)))
      | true, .rstruct subf, .rvi i =>
        unbindStructFields fs vs
          (insertGo m (keyOf nm tg) (goValOfField (.rstruct subf) (.rvi i)))
      | true, .rstruct subf, .rvu n =>
        unbindStructFields fs vs
          (insertGo m (keyOf nm tg) (goValOfField (.rstruct subf) (.rvu n)))
      | true, .rstruct subf, .rvf q =>
        unbindStructFields fs vs
          (insertGo m (keyOf nm tg) (goValOfField (.rstruct subf) (.rvf q)))
      | true, .rbasic k, v1 =>
        unbindStructFields fs vs
          (insertGo m (keyOf nm tg) (goValOfField (.rbasic k) v1))
      | false, ty1, v1 =>
        unbindStructFields fs vs
          (insertGo m (keyOf nm tg) (goValOfField ty1 v1))
termination_by fields _ _ => sizeOf fields
decreasing_by all_goals simp_wf <;> omega

/-- `getAnyFromValue` of bind.go on the embedded universe: basic fields
    carry their value out with its dynamic type; nested (non-anonymous)
    struct fields become nested mappings. -/
def goValOfField : RTy → RVal → GoVal
  | .rbasic k, v => basicToGo k v
  | .rstruct fields, .rvstruct vals => .vmap (unbindStructFields fields vals [])
  | .rstruct _, .rvb _ => .vnil
  | .rstruct _, .rvs _ => .vnil
  | .rstruct _, .rvi _ => .vnil
  | .rstruct _, .rvu _ => .vnil
  | .rstruct _, .rvf _ => .vnil
termination_by ty _ => sizeOf ty
decreasing_by all_goals simp_wf

end

/-- `maps.Unbind` on the embedded universe: project a struct value into a
    fresh mapping. -/
def goUnbind (fields : List RField) (x : RVal) : GoMap :=
  match x with
  | .rvstruct vals => unbindStructFields fields vals []
  | _ => []

/-- Well-typedness of a basic record value at a basic kind: integer
    payloads fit the declared width. -/
def bkWellTyped (k : BKind) (v : RVal) : Bool :=
  match k, v with
  | .kbool, .rvb _ => true
  | .kstring, .rvs _ => true
  | .kint w, .rvi i => withinIntRange i (bitsOfIW w)
  | .kuint w, .rvu n => withinUintRange n (bitsOfIW w)
  | .kfloat _, .rvf _ => true
  | _, _ => false

/-! ## Association-list map lemmas -/

theorem lookupGo_insertGo_self (m : GoMap) (k : String) (v : GoVal) :
    lookupGo (insertGo m k v) k = some v := by
  induction m with
  | nil => simp [insertGo, lookupGo]
  | cons kv rest ih =>
    obtain ⟨k0, v0⟩ := kv
    by_cases h : k0 = k
    · simp [insertGo, h, lookupGo]
    · simp [insertGo, h, lookupGo, ih]

theorem lookupGo_insertGo_ne (m : GoMap) (k k2 : String) (v : GoVal)
    (h : k2 ≠ k) : lookupGo (insertGo m k v) k2 = lookupGo m k2 := by
  induction m with
  | nil => simp [insertGo, lookupGo, Ne.symm h]
  | cons kv rest ih =>
    obtain ⟨k0, v0⟩ := kv
    by_cases h0 : k0 = k
    · subst h0
      simp [insertGo, lookupGo, Ne.symm h]
    · by_cases h2 : k0 = k2
      · subst h2
        simp [insertGo, h0, lookupGo]
      · simp [insertGo, h0, lookupGo, h2, ih]

theorem insertGo_lookup_self_eq (m : GoMap) (k : String) (v : GoVal)
    (h : lookupGo m k = some v) : insertGo m k v = m := by
  induction m with
  | nil => simp [lookupGo] at h
  | cons kv rest ih =>
    obtain ⟨k0, v0⟩ := kv
    by_cases h0 : k0 = k
    · subst h0
      simp [lookupGo] at h
      simp [insertGo, h]
    · simp [lookupGo, h0] at h
      simp [insertGo, h0, ih h]

/-! ## Merge engine lemmas and theorems (claims about `merge.go`) -/

theorem normKeysNE_cons_empty {k : String} (v : GoVal) (rest : GoMap)
    (h : goNorm k = "") : normKeysNE ((k, v) :: rest) = normKeysNE rest := by
  simp [normKeysNE, h]

theorem normKeysNE_cons_ne {k : String} (v : GoVal) (rest : GoMap)
    (h : goNorm k ≠ "") :
    normKeysNE ((k, v) :: rest) = goNorm k :: normKeysNE rest := by
  simp [normKeysNE, h]

theorem mem_normKeysNE {k : String} {val : GoVal} {src : GoMap}
    (h1 : (k, val) ∈ src) (h2 : goNorm k ≠ "") : goNorm k ∈ normKeysNE src := by
  simp only [normKeysNE, List.mem_filterMap]
  exact ⟨(k, val), h1, by simp [h2]⟩

theorem foldl_attach_pairs (l : List (String × GoVal))
    (f : GoMap → String × GoVal → GoMap) (init : GoMap) :
    l.attach.foldl (fun d kv => f d kv.1) init = l.foldl f init := by
  induction l generalizing init with
  | nil => simp
  | cons a t ih => simp [List.attach_cons, List.foldl_map, ih]

theorem foldl_attach_mergeStep (l : List (String × GoVal)) (init : GoMap) :
    l.attach.foldl (fun d kv => mergeStep d kv.1.1 kv.1.2) init =
      l.foldl (fun d kv => mergeStep d kv.1 kv.2) init :=
  foldl_attach_pairs l (fun d kv => mergeStep d kv.1 kv.2) init

theorem foldl_attach_mergeStepWO (l : List (String × GoVal)) (init : GoMap) :
    l.attach.foldl (fun d kv => mergeStepWO d kv.1.1 kv.1.2) init =
      l.foldl (fun d kv => mergeStepWO d kv.1 kv.2) init :=
  foldl_attach_pairs l (fun d kv => mergeStepWO d kv.1 kv.2) init

theorem goMerge_nil (dst : GoMap) : goMerge dst [] = dst := rfl

theorem goMerge_cons (dst rest : GoMap) (k : String) (val : GoVal) :
    goMerge dst ((k, val) :: rest) = goMerge (mergeStep dst k val) rest := rfl

theorem goMergeWO_nil (dst : GoMap) : goMergeWO dst [] = dst := rfl

theorem goMergeWO_cons (dst rest : GoMap) (k : String) (val : GoVal) :
    goMergeWO dst ((k, val) :: rest) = goMergeWO (mergeStepWO dst k val) rest := rfl

theorem mergeStep_eq (dst : GoMap) (k : String) (val : GoVal) :
    mergeStep dst k val =
      (if goNorm k = "" then dst
       else
         match lookupGo dst (goNorm k), val with
         | some (.vmap dm), .vmap sm => insertGo dst (goNorm k) (.vmap (goMerge dm sm))
         | _, _ => insertGo dst (goNorm k) val) := by
  rw [mergeStep.eq_def]
  by_cases h : goNorm k = ""
  · simp [h]
  · simp only [h, if_false]
    cases hl : lookupGo dst (goNorm k) with
    | none => cases val <;> simp [hl, asMap]
    | some dv =>
      cases dv <;> cases val <;> simp [hl, asMap, goMerge, foldl_attach_mergeStep]

theorem mergeStepWO_eq (dst : GoMap) (k : String) (val : GoVal) :
    mergeStepWO dst k val =
      (if goNorm k = "" then dst
       else
         match lookupGo dst (goNorm k), val with
         | some (.vmap dm), .vmap sm =>
           insertGo dst (goNorm k) (.vmap (goMergeWO dm sm))
         | some _, _ => dst
         | none, _ => insertGo dst (goNorm k) val) := by
  rw [mergeStepWO.eq_def]
  by_cases h : goNorm k = ""
  · simp [h]
  · simp only [h, if_false]
    cases hl : lookupGo dst (goNorm k) with
    | none => cases val <;> simp [hl, asMap]
    | some dv =>
      cases dv <;> cases val <;> simp [hl, asMap, goMergeWO, foldl_attach_mergeStepWO]

theorem mergeStep_skip (dst : GoMap) (k : String) (val : GoVal)
    (h : goNorm k = "") : mergeStep dst k val = dst := by
  simp [mergeStep_eq, h]

theorem mergeStepWO_skip (dst : GoMap) (k : String) (val : GoVal)
    (h : goNorm k = "") : mergeStepWO dst k val = dst := by
  simp [mergeStepWO_eq, h]

theorem mergeStep_lookup_self (dst : GoMap) (k : String) (val : GoVal)
    (h : goNorm k ≠ "") :
    lookupGo (mergeStep dst k val) (goNorm k) =
      some (expectedMerge (lookupGo dst (goNorm k)) val) := by
  cases hl : lookupGo dst (goNorm k) with
  | none =>
    cases val <;>
      simp [mergeStep_eq, expectedMerge, h, hl, lookupGo_insertGo_self]
  | some dv =>
    cases dv <;> cases val <;>
      simp [mergeStep_eq, expectedMerge, h, hl, lookupGo_insertGo_self]

theorem mergeStepWO_lookup_self (dst : GoMap) (k : String) (val : GoVal)
    (h : goNorm k ≠ "") :
    lookupGo (mergeStepWO dst k val) (goNorm k) =
      some (expectedMergeWO (lookupGo dst (goNorm k)) val) := by
  cases hl : lookupGo dst (goNorm k) with
  | none =>
    cases val <;>
      simp [mergeStepWO_eq, expectedMergeWO, h, hl, lookupGo_insertGo_self]
  | some dv =>
    cases dv <;> cases val <;>
      simp [mergeStepWO_eq, expectedMergeWO, h, hl, lookupGo_insertGo_self]

theorem mergeStep_lookup_ne (dst : GoMap) (k nk2 : String) (val : GoVal)
    (h : nk2 ≠ goNorm k) :
    lookupGo (mergeStep dst k val) nk2 = lookupGo dst nk2 := by
  by_cases he : goNorm k = ""
  · simp [mergeStep_eq, he]
  · cases hl : lookupGo dst (goNorm k) with
    | none =>
      cases val <;> simp [mergeStep_eq, he, hl, lookupGo_insertGo_ne _ _ _ _ h]
    | some dv =>
      cases dv <;> cases val <;>
        simp [mergeStep_eq, he, hl, lookupGo_insertGo_ne _ _ _ _ h]

theorem mergeStepWO_lookup_ne (dst : GoMap) (k nk2 : String) (val : GoVal)
    (h : nk2 ≠ goNorm k) :
    lookupGo (mergeStepWO dst k val) nk2 = lookupGo dst nk2 := by
  by_cases he : goNorm k = ""
  · simp [mergeStepWO_eq, he]
  · cases hl : lookupGo dst (goNorm k) with
    | none =>
      cases val <;> simp [mergeStepWO_eq, he, hl, lookupGo_insertGo_ne _ _ _ _ h]
    | some dv =>
      cases dv <;> cases val <;>
        simp [mergeStepWO_eq, he, hl, lookupGo_insertGo_ne _ _ _ _ h]

theorem goMerge_lookup_notmem (src : GoMap) :
    ∀ dst nk, nk ∉ normKeysNE src →
      lookupGo (goMerge dst src) nk = lookupGo dst nk := by
  induction src with
  | nil => intro dst nk _; rw [goMerge_nil]
  | cons kv rest ih =>
    intro dst nk hmem
    obtain ⟨k0, v0⟩ := kv
    rw [goMerge_cons]
    by_cases he : goNorm k0 = ""
    · rw [mergeStep_skip _ _ _ he]
      exact ih dst nk (by rwa [normKeysNE_cons_empty _ _ he] at hmem)
    · rw [normKeysNE_cons_ne _ _ he] at hmem
      simp only [List.mem_cons, not_or] at hmem
      rw [ih _ nk hmem.2, mergeStep_lookup_ne _ _ _ _ hmem.1]

theorem goMergeWO_lookup_notmem (src : GoMap) :
    ∀ dst nk, nk ∉ normKeysNE src →
      lookupGo (goMergeWO dst src) nk = lookupGo dst nk := by
  induction src with
  | nil => intro dst nk _; rw [goMergeWO_nil]
  | cons kv rest ih =>
    intro dst nk hmem
    obtain ⟨k0, v0⟩ := kv
    rw [goMergeWO_cons]
    by_cases he : goNorm k0 = ""
    · rw [mergeStepWO_skip _ _ _ he]
      exact ih dst nk (by rwa [normKeysNE_cons_empty _ _ he] at hmem)
    · rw [normKeysNE_cons_ne _ _ he] at hmem
      simp only [List.mem_cons, not_or] at hmem
      rw [ih _ nk hmem.2, mergeStepWO_lookup_ne _ _ _ _ hmem.1]

/-- C1: `maps.Merge` mutates the destination so that every source entry
    with a nonempty lower-cased trimmed key `k'` ends up at `k'`, merged
    recursively when both sides hold mappings and replaced by the source
    value unconditionally otherwise; entries whose normalized key is
    empty have no effect; and a destination entry inserted under
    normalized key `"key1"` merged with a source key `"KEY1"` resolves to
    the single entry `"key1"`. -/
theorem merge_override_behavior :
    (∀ dst src, (normKeysNE src).Nodup →
      ∀ k val, (k, val) ∈ src → goNorm k ≠ "" →
        lookupGo (goMerge dst src) (goNorm k) =
          some (expectedMerge (lookupGo dst (goNorm k)) val)) ∧
    (∀ dst pre post (k : String) (val : GoVal), goNorm k = "" →
      goMerge dst (pre ++ (k, val) :: post) = goMerge dst (pre ++ post)) ∧
    goMerge [("key1", .vstr "a")] [("KEY1", .vstr "x")] = [("key1", .vstr "x")] := by
  refine ⟨?_, ?_, ?_⟩
  · intro dst src
    induction src generalizing dst with
    | nil =>
      intro _ k val hmem
      simp at hmem
    | cons kv rest ih =>
      intro hnod k val hmem hne
      obtain ⟨k0, v0⟩ := kv
      rw [goMerge_cons]
      rcases List.mem_cons.mp hmem with heq | hmem2
      · rw [Prod.mk.injEq] at heq
        obtain ⟨h1, h2⟩ := heq
        subst h1
        subst h2
        have hnotin : goNorm k ∉ normKeysNE rest := by
          rw [normKeysNE_cons_ne _ _ hne] at hnod
          exact (List.nodup_cons.mp hnod).1
        rw [goMerge_lookup_notmem rest _ _ hnotin,
          mergeStep_lookup_self dst k val hne]
      · by_cases he0 : goNorm k0 = ""
        · rw [mergeStep_skip _ _ _ he0]
          exact ih dst (by rwa [normKeysNE_cons_empty _ _ he0] at hnod) k val
            hmem2 hne
        · have hne0 : goNorm k ≠ goNorm k0 := by
            rw [normKeysNE_cons_ne _ _ he0] at hnod
            have h3 := (List.nodup_cons.mp hnod).1
            intro hcontr
            exact h3 (hcontr ▸ mem_normKeysNE hmem2 hne)
          rw [ih (mergeStep dst k0 v0)
              (by rw [normKeysNE_cons_ne _ _ he0] at hnod
                  exact (List.nodup_cons.mp hnod).2) k val hmem2 hne,
            mergeStep_lookup_ne dst k0 (goNorm k) v0 hne0]
  · intro dst pre post k val h
    induction pre generalizing dst with
    | nil =>
      simp only [List.nil_append]
      rw [goMerge_cons, mergeStep_skip _ _ _ h]
    | cons kv pre2 ih =>
      obtain ⟨k1, v1⟩ := kv
      simp only [List.cons_append]
      rw [goMerge_cons, goMerge_cons]
      exact ih (mergeStep dst k1 v1)
  · rw [show goMerge [("key1", GoVal.vstr "a")] [("KEY1", GoVal.vstr "x")] =
        mergeStep [("key1", GoVal.vstr "a")] "KEY1" (GoVal.vstr "x") from rfl,
      mergeStep_eq]
    simp +decide [lookupGo, insertGo]

/-- Witness for C1 at a concrete input. -/
theorem merge_override_behavior_witness :
    lookupGo (goMerge [("key1", GoVal.vstr "a")] [("KEY1", GoVal.vstr "x")])
        (goNorm "KEY1") =
      some (expectedMerge
        (lookupGo [("key1", GoVal.vstr "a")] (goNorm "KEY1")) (GoVal.vstr "x")) :=
  merge_override_behavior.1 [("key1", GoVal.vstr "a")]
    [("KEY1", GoVal.vstr "x")] (by decide) "KEY1" (GoVal.vstr "x")
    (List.mem_singleton.mpr rfl) (by decide)

/-- C2: `maps.MergeWithoutOverride` is left-biased on existing keys and
    additive on new keys: a source entry with nonempty normalized key
    `k'` is added when `k'` is absent from the destination, merged
    recursively when both sides hold mappings, and otherwise leaves the
    existing destination value untouched. -/
theorem merge_no_override_behavior :
    ∀ dst src, (normKeysNE src).Nodup →
      ∀ k val, (k, val) ∈ src → goNorm k ≠ "" →
        lookupGo (goMergeWO dst src) (goNorm k) =
          some (expectedMergeWO (lookupGo dst (goNorm k)) val) := by
  intro dst src
  induction src generalizing dst with
  | nil =>
    intro _ k val hmem
    simp at hmem
  | cons kv rest ih =>
    intro hnod k val hmem hne
    obtain ⟨k0, v0⟩ := kv
    rw [goMergeWO_cons]
    rcases List.mem_cons.mp hmem with heq | hmem2
    · rw [Prod.mk.injEq] at heq
      obtain ⟨h1, h2⟩ := heq
      subst h1
      subst h2
      have hnotin : goNorm k ∉ normKeysNE rest := by
        rw [normKeysNE_cons_ne _ _ hne] at hnod
        exact (List.nodup_cons.mp hnod).1
      rw [goMergeWO_lookup_notmem rest _ _ hnotin,
        mergeStepWO_lookup_self dst k val hne]
    · by_cases he0 : goNorm k0 = ""
      · rw [mergeStepWO_skip _ _ _ he0]
        exact ih dst (by rwa [normKeysNE_cons_empty _ _ he0] at hnod) k val
          hmem2 hne
      · have hne0 : goNorm k ≠ goNorm k0 := by
          rw [normKeysNE_cons_ne _ _ he0] at hnod
          have h3 := (List.nodup_cons.mp hnod).1
          intro hcontr
          exact h3 (hcontr ▸ mem_normKeysNE hmem2 hne)
        rw [ih (mergeStepWO dst k0 v0)
            (by rw [normKeysNE_cons_ne _ _ he0] at hnod
                exact (List.nodup_cons.mp hnod).2) k val hmem2 hne,
          mergeStepWO_lookup_ne dst k0 (goNorm k) v0 hne0]

/-- Witness for C2 at a concrete input: the existing `"key1"` entry is
    kept. -/
theorem merge_no_override_behavior_witness :
    lookupGo (goMergeWO [("key1", GoVal.vstr "a")] [("KEY1", GoVal.vstr "x")])
        (goNorm "KEY1") =
      some (expectedMergeWO
        (lookupGo [("key1", GoVal.vstr "a")] (goNorm "KEY1")) (GoVal.vstr "x")) :=
  merge_no_override_behavior [("key1", GoVal.vstr "a")]
    [("KEY1", GoVal.vstr "x")] (by decide) "KEY1" (GoVal.vstr "x")
    (List.mem_singleton.mpr rfl) (by decide)

/-! ## Nested-map navigator lemmas and theorems -/

theorem blockedB_nil_map (parts : List String) :
    blockedB [] parts = false := by
  cases parts <;> simp [blockedB, lookupGo]

theorem goFind_false_eq (parts : List String) :
    ∀ m, goFind m parts false = (m, mapAtPath m parts) := by
  induction parts with
  | nil => intro m; simp [goFind, mapAtPath]
  | cons p rest ih =>
    intro m
    cases hl : lookupGo m p with
    | none => cases rest <;> simp [goFind, mapAtPath, hl]
    | some v =>
      cases v <;> cases rest <;>
        simp [goFind, mapAtPath, hl, ih, insertGo_lookup_self_eq _ _ _ hl]

theorem goFind_blocked (parts : List String) :
    ∀ m create, blockedB m parts = true → goFind m parts create = (m, none) := by
  induction parts with
  | nil => intro m create h; simp [blockedB] at h
  | cons p rest ih =>
    intro m create h
    cases hl : lookupGo m p with
    | none => simp [blockedB, hl] at h
    | some v =>
      cases v with
      | vmap nm =>
        have hb : blockedB nm rest = true := by simpa [blockedB, hl] using h
        cases rest with
        | nil => simp [blockedB] at hb
        | cons q r2 =>
          simp [goFind, hl, ih nm create hb, insertGo_lookup_self_eq _ _ _ hl]
      | vbool b => cases rest <;> simp [goFind, hl]
      | vstr s => cases rest <;> simp [goFind, hl]
      | vint w i => cases rest <;> simp [goFind, hl]
      | vuint w n => cases rest <;> simp [goFind, hl]
      | vfloat w q => cases rest <;> simp [goFind, hl]
      | vdur i => cases rest <;> simp [goFind, hl]
      | vnil => cases rest <;> simp [goFind, hl]
      | vslice xs => cases rest <;> simp [goFind, hl]

theorem goFind_create_found (parts : List String) :
    ∀ m, blockedB m parts = false →
      ∃ r, (goFind m parts true).2 = some r ∧
        mapAtPath (goFind m parts true).1 parts = some r := by
  induction parts with
  | nil =>
    intro m _
    exact ⟨m, by simp [goFind], by simp [goFind, mapAtPath]⟩
  | cons p rest ih =>
    intro m h
    cases hl : lookupGo m p with
    | some v =>
      cases v with
      | vmap nm =>
        have hb : blockedB nm rest = false := by simpa [blockedB, hl] using h
        cases rest with
        | nil =>
          exact ⟨nm, by simp [goFind, hl], by simp [goFind, mapAtPath, hl]⟩
        | cons q r2 =>
          obtain ⟨r0, h1, h2⟩ := ih nm hb
          refine ⟨r0, ?_, ?_⟩
          · rw [goFind]
            simp [hl, h1]
          · rw [goFind]
            simp [mapAtPath, hl, lookupGo_insertGo_self]
            exact h2
      | vbool b => simp [blockedB, hl] at h
      | vstr s => simp [blockedB, hl] at h
      | vint w i => simp [blockedB, hl] at h
      | vuint w n => simp [blockedB, hl] at h
      | vfloat w q => simp [blockedB, hl] at h
      | vdur i => simp [blockedB, hl] at h
      | vnil => simp [blockedB, hl] at h
      | vslice xs => simp [blockedB, hl] at h
    | none =>
      obtain ⟨r0, h1, h2⟩ := ih [] (blockedB_nil_map rest)
      refine ⟨r0, ?_, ?_⟩
      · simp [goFind, hl, h1]
      · simp [goFind, mapAtPath, hl, lookupGo_insertGo_self]
        exact h2

/-- C8: the nested-map navigator in read mode returns exactly the pure
    navigation result and never mutates the tree; a path with an
    existing non-mapping entry at any segment is blocked (absent result,
    tree untouched) even in create mode; and an unblocked create-mode
    resolution returns the mapping sitting at the requested path in the
    (possibly extended) tree. -/
theorem findNestedMap_navigation :
    (∀ m parts, goFind m parts false = (m, mapAtPath m parts)) ∧
    (∀ m parts create, blockedB m parts = true →
      goFind m parts create = (m, none)) ∧
    (∀ m parts, blockedB m parts = false →
      ∃ r, (goFind m parts true).2 = some r ∧
        mapAtPath (goFind m parts true).1 parts = some r) :=
  ⟨fun m parts => goFind_false_eq parts m,
   fun m parts create h => goFind_blocked parts m create h,
   fun m parts h => goFind_create_found parts m h⟩

/-- Witness for C8: a scalar at `"a"` blocks the path `a.b` even in
    create mode, and the tree is left untouched. -/
theorem findNestedMap_navigation_witness :
    goFind [("a", GoVal.vstr "s")] ["a", "b"] true =
      ([("a", GoVal.vstr "s")], none) :=
  findNestedMap_navigation.2.1 [("a", GoVal.vstr "s")] ["a", "b"] true
    (by decide)

/-! ## BuildNestedMap theorems -/

/-- C10: in `env.BuildNestedMap`, an intermediate path segment that
    already holds a non-mapping value is silently replaced by a fresh
    mapping holding the rest of the path — the stored value is lost and
    the later variable wins — exactly where the navigator
    (`FindNestedMap`) would refuse to traverse and return absent. -/
theorem buildNestedMap_replaces_scalar :
    ∀ (m : GoMap) (key sep : String) (v : GoVal) (p : String)
      (rest : List String),
      sep ≠ "" → goSplit key sep = p :: rest → rest ≠ [] →
      ∀ w, lookupGo m p = some w → isVMap w = false →
        lookupGo (buildNestedMap m key v sep) p =
          some (.vmap (buildParts [] rest v)) ∧
        goFind m (p :: rest) true = (m, none) := by
  intro m key sep v p rest hsep hsplit hrest w hl hw
  constructor
  · rw [buildNestedMap, if_neg hsep, hsplit]
    cases rest with
    | nil => exact absurd rfl hrest
    | cons q r2 =>
      cases w <;> simp [isVMap] at hw <;>
        simp [buildParts, hl, lookupGo_insertGo_self]
  · have hb : blockedB m (p :: rest) = true := by
      cases w <;> simp [isVMap] at hw <;> simp [blockedB, hl]
    exact goFind_blocked (p :: rest) m true hb

/-- Witness for C10: inserting `a:b` over an existing scalar at `"a"`
    replaces the scalar by a nested mapping, where the navigator would
    have returned absent. -/
theorem buildNestedMap_replaces_scalar_witness :
    lookupGo (buildNestedMap [("a", GoVal.vstr "s")] "a:b" (GoVal.vstr "z") ":")
        "a" = some (.vmap (buildParts [] ["b"] (GoVal.vstr "z"))) ∧
    goFind [("a", GoVal.vstr "s")] ["a", "b"] true =
      ([("a", GoVal.vstr "s")], none) :=
  buildNestedMap_replaces_scalar [("a", GoVal.vstr "s")] "a:b" ":"
    (GoVal.vstr "z") "a" ["b"] (by decide) (by decide) (by decide)
    (GoVal.vstr "s") rfl rfl

/-! ## Variable-name normalizer lemmas and theorems -/

theorem goSplitF_ne_nil (sep : List Char) (fuel : Nat) (s : List Char) :
    goSplitF sep fuel s ≠ [] := by
  cases fuel with
  | zero => simp [goSplitF]
  | succ f =>
    rw [goSplitF]
    cases findOcc sep s <;> simp

theorem goSplit_ne_nil (s sep : String) (h : sep ≠ "") :
    goSplit s sep ≠ [] := by
  rw [goSplit, if_neg h, goSplitL]
  by_cases h2 : sep.data = []
  · simp [h2]
  · simp [h2, goSplitF_ne_nil]

theorem lookupPath_nil_map (parts : List String) (h : parts ≠ []) :
    lookupPath [] parts = none := by
  cases parts with
  | nil => exact absurd rfl h
  | cons p rest => cases rest <;> simp [lookupPath, lookupGo]

theorem lookupPath_buildParts_self (parts : List String) :
    ∀ m v, parts ≠ [] → lookupPath (buildParts m parts v) parts = some v := by
  induction parts with
  | nil => intro m v h; exact absurd rfl h
  | cons p rest ih =>
    intro m v _
    cases rest with
    | nil => simp [buildParts, lookupPath, lookupGo_insertGo_self]
    | cons q r2 =>
      cases hl : lookupGo m p with
      | none =>
        simp [buildParts, lookupPath, hl, lookupGo_insertGo_self,
          ih _ v (by simp)]
      | some w =>
        cases w <;>
          simp [buildParts, lookupPath, hl, lookupGo_insertGo_self,
            ih _ v (by simp)]

theorem lookupPath_buildParts_other (parts2 : List String) :
    ∀ (parts1 : List String) (m : GoMap) (v : GoVal),
      parts1 ≠ [] → parts2 ≠ [] →
      leadsStr parts1 parts2 = false → leadsStr parts2 parts1 = false →
      lookupPath (buildParts m parts2 v) parts1 = lookupPath m parts1 := by
  induction parts2 with
  | nil => intro parts1 m v _ h2; exact absurd rfl h2
  | cons p2 rest2 ih =>
    intro parts1 m v h1 _ hpre1 hpre2
    cases parts1 with
    | nil => exact absurd rfl h1
    | cons p1 r1 =>
      by_cases hpp : p1 = p2
      · subst hpp
        have hr1ne : r1 ≠ [] := by
          intro he
          subst he
          simp [leadsStr] at hpre1
        cases rest2 with
        | nil => simp [leadsStr] at hpre2
        | cons q2 r22 =>
          have hpre1r : leadsStr r1 (q2 :: r22) = false := by
            simpa [leadsStr] using hpre1
          have hpre2r : leadsStr (q2 :: r22) r1 = false := by
            simpa [leadsStr] using hpre2
          obtain ⟨c1, cr, rfl⟩ : ∃ c1 cr, r1 = c1 :: cr := by
            cases r1 with
            | nil => exact absurd rfl hr1ne
            | cons c1 cr => exact ⟨c1, cr, rfl⟩
          cases hl : lookupGo m p1 with
          | none =>
            rw [buildParts]
            rw [hl]
            simp only [lookupPath, lookupGo_insertGo_self, hl]
            rw [ih (c1 :: cr) [] v (by simp) (by simp) hpre1r hpre2r,
              lookupPath_nil_map _ (by simp)]
          | some w =>
            cases w with
            | vmap mm =>
              rw [buildParts]
              rw [hl]
              simp only [lookupPath, lookupGo_insertGo_self, hl]
              rw [ih (c1 :: cr) mm v (by simp) (by simp) hpre1r hpre2r]
            | vbool b =>
              rw [buildParts, hl]
              simp only [lookupPath, lookupGo_insertGo_self, hl]
              rw [ih (c1 :: cr) [] v (by simp) (by simp) hpre1r hpre2r,
                lookupPath_nil_map _ (by simp)]
            | vstr s =>
              rw [buildParts, hl]
              simp only [lookupPath, lookupGo_insertGo_self, hl]
              rw [ih (c1 :: cr) [] v (by simp) (by simp) hpre1r hpre2r,
                lookupPath_nil_map _ (by simp)]
            | vint w i =>
              rw [buildParts, hl]
              simp only [lookupPath, lookupGo_insertGo_self, hl]
              rw [ih (c1 :: cr) [] v (by simp) (by simp) hpre1r hpre2r,
                lookupPath_nil_map _ (by simp)]
            | vuint w n =>
              rw [buildParts, hl]
              simp only [lookupPath, lookupGo_insertGo_self, hl]
              rw [ih (c1 :: cr) [] v (by simp) (by simp) hpre1r hpre2r,
                lookupPath_nil_map _ (by simp)]
            | vfloat w q =>
              rw [buildParts, hl]
              simp only [lookupPath, lookupGo_insertGo_self, hl]
              rw [ih (c1 :: cr) [] v (by simp) (by simp) hpre1r hpre2r,
                lookupPath_nil_map _ (by simp)]
            | vdur i =>
              rw [buildParts, hl]
              simp only [lookupPath, lookupGo_insertGo_self, hl]
              rw [ih (c1 :: cr) [] v (by simp) (by simp) hpre1r hpre2r,
                lookupPath_nil_map _ (by simp)]
            | vnil =>
              rw [buildParts, hl]
              simp only [lookupPath, lookupGo_insertGo_self, hl]
              rw [ih (c1 :: cr) [] v (by simp) (by simp) hpre1r hpre2r,
                lookupPath_nil_map _ (by simp)]
            | vslice xs =>
              rw [buildParts, hl]
              simp only [lookupPath, lookupGo_insertGo_self, hl]
              rw [ih (c1 :: cr) [] v (by simp) (by simp) hpre1r hpre2r,
                lookupPath_nil_map _ (by simp)]
      · have hne : p1 ≠ p2 := hpp
        cases rest2 with
        | nil =>
          cases r1 <;>
            simp [buildParts, lookupPath, lookupGo_insertGo_ne _ _ _ _ hne]
        | cons q2 r22 =>
          cases hl : lookupGo m p2 with
          | none =>
            cases r1 <;>
              simp [buildParts, lookupPath, hl,
                lookupGo_insertGo_ne _ _ _ _ hne]
          | some w =>
            cases w <;> cases r1 <;>
              simp [buildParts, lookupPath, hl,
                lookupGo_insertGo_ne _ _ _ _ hne]

/-- C9: when `normalizeKey` is set, a variable that survives the deny
    list and the prefix filter is registered under both nested keys: the
    hierarchical path obtained by splitting its lower-cased trimmed key
    on the configured separator, and the compact alias obtained by
    deleting the underscore word-separator (after the separator has been
    replaced by the object separator) — both holding the variable's
    string value.  The compact lookup is stated under the side condition
    that neither path is a proper prefix of the other (when the two paths
    collide, as flagged open in the spec, the later literal insertion can
    bury the compact one). -/
theorem parseVariables_registers_both :
    ∀ (k v pre sep : String),
      isUnsafeVar (goToLowerStr (goTrimStr k)) = false →
      (goToLowerStr (goTrimStr pre) = "" ∨
        goStartsWith (goToLowerStr (goTrimStr k))
          (goToLowerStr (goTrimStr pre)) = true) →
      sep ≠ "" →
      (compactParts k (goToLowerStr (goTrimStr pre)) sep = literalParts k sep ∨
        (leadsStr (compactParts k (goToLowerStr (goTrimStr pre)) sep)
            (literalParts k sep) = false ∧
         leadsStr (literalParts k sep)
            (compactParts k (goToLowerStr (goTrimStr pre)) sep) = false)) →
      parseVariables [(k, v)] pre sep true =
        buildParts
          (buildParts [] (compactParts k (goToLowerStr (goTrimStr pre)) sep)
            (.vstr v))
          (literalParts k sep) (.vstr v) ∧
      lookupPath (parseVariables [(k, v)] pre sep true)
          (literalParts k sep) = some (.vstr v) ∧
      lookupPath (parseVariables [(k, v)] pre sep true)
          (compactParts k (goToLowerStr (goTrimStr pre)) sep) =
        some (.vstr v) := by
  intro k v pre sep hsafe hpre hsep hside
  have hstep : parseVariables [(k, v)] pre sep true =
      parseOneVar [] k v (goToLowerStr (goTrimStr pre)) sep true := rfl
  have hcond : ¬(goToLowerStr (goTrimStr pre) ≠ "" ∧
      goStartsWith (goToLowerStr (goTrimStr k))
        (goToLowerStr (goTrimStr pre)) = false) := by
    rcases hpre with h | h
    · intro hc
      exact hc.1 h
    · intro hc
      rw [h] at hc
      exact absurd hc.2 (by simp)
  have hval : parseVariables [(k, v)] pre sep true =
      buildParts
        (buildParts [] (compactParts k (goToLowerStr (goTrimStr pre)) sep)
          (.vstr v))
        (literalParts k sep) (.vstr v) := by
    rw [hstep, parseOneVar]
    rw [if_neg (by simp [hsafe]), if_neg hcond, if_pos hsep, if_pos hsep]
    rw [buildNestedMap, buildNestedMap,
      if_neg (show objSep ≠ "" by decide), if_neg hsep]
    rfl
  have hlit : literalParts k sep ≠ [] := goSplit_ne_nil _ _ hsep
  have hcomp : compactParts k (goToLowerStr (goTrimStr pre)) sep ≠ [] := by
    rw [compactParts]
    exact goSplit_ne_nil _ _ (by decide)
  refine ⟨hval, ?_, ?_⟩
  · rw [hval]
    exact lookupPath_buildParts_self _ _ _ hlit
  · rw [hval]
    rcases hside with heq | ⟨hp1, hp2⟩
    · rw [heq]
      exact lookupPath_buildParts_self _ _ _ hlit
    · rw [lookupPath_buildParts_other (literalParts k sep) _ _ _ hcomp hlit
        hp1 hp2]
      exact lookupPath_buildParts_self _ _ _ hcomp

/-- Witness for C9: the variable `APP__DB_HOST` with separator `__` is
    readable both at the hierarchical path `["app", "db_host"]` and at
    the compact path `["app", "dbhost"]`. -/
theorem parseVariables_registers_both_witness :
    lookupPath (parseVariables [("APP__DB_HOST", "x")] "" "__" true)
        (literalParts "APP__DB_HOST" "__") = some (.vstr "x") ∧
    lookupPath (parseVariables [("APP__DB_HOST", "x")] "" "__" true)
        (compactParts "APP__DB_HOST" (goToLowerStr (goTrimStr "")) "__") =
      some (.vstr "x") :=
  (parseVariables_registers_both "APP__DB_HOST" "x" "" "__" (by decide)
    (Or.inl (by decide)) (by decide) (Or.inr (by decide))).2

/-! ## Deep-clone lemmas and theorems -/

theorem valRefGe_mono {v : SVal} {n n2 : Nat} (h : n2 ≤ n)
    (hv : valRefGe v n = true) : valRefGe v n2 = true := by
  cases v with
  | sscalar s => rfl
  | sref a =>
    simp [valRefGe] at hv ⊢
    omega

theorem nodeRefsGeB_mono {nd : SNode} {n n2 : Nat} (h : n2 ≤ n)
    (hv : nodeRefsGeB nd n = true) : nodeRefsGeB nd n2 = true := by
  cases nd with
  | smap es =>
    simp only [nodeRefsGeB, List.all_eq_true] at hv ⊢
    exact fun kv hm => valRefGe_mono h (hv kv hm)
  | sslice xs =>
    simp only [nodeRefsGeB, List.all_eq_true] at hv ⊢
    exact fun x hm => valRefGe_mono h (hv x hm)

theorem cloneVal_inv :
    ∀ f st v st2 v2, cloneVal f st v = some (st2, v2) →
      st.length ≤ st2.length ∧
      (∀ a, a < st.length → st2[a]? = st[a]?) ∧
      valRefGe v2 st.length = true ∧
      (∀ j nd, st.length ≤ j → st2[j]? = some nd →
        nodeRefsGeB nd st.length = true) := by
  intro f
  induction f with
  | zero =>
    intro st v st2 v2 h
    simp [cloneVal] at h
  | succ f ih =>
    have hent : ∀ es st st2 es2, cloneEntries f st es = some (st2, es2) →
        st.length ≤ st2.length ∧
        (∀ a, a < st.length → st2[a]? = st[a]?) ∧
        (∀ kv, kv ∈ es2 → valRefGe kv.2 st.length = true) ∧
        (∀ j nd, st.length ≤ j → st2[j]? = some nd →
          nodeRefsGeB nd st.length = true) := by
      intro es
      induction es with
      | nil =>
        intro st st2 es2 h
        simp [cloneEntries] at h
        obtain ⟨rfl, rfl⟩ := h
        exact ⟨le_refl _, fun a _ => rfl, by simp, fun j nd hj hnd => by
          rw [List.getElem?_eq_none hj] at hnd
          exact absurd hnd (by simp)⟩
      | cons kv rest ihr =>
        intro st st2 es2 h
        obtain ⟨k0, v0⟩ := kv
        rw [cloneEntries] at h
        cases h1 : cloneVal f st v0 with
        | none => rw [h1] at h; simp at h
        | some r1 =>
          obtain ⟨st1, w1⟩ := r1
          rw [h1] at h
          dsimp only at h
          cases h2 : cloneEntries f st1 rest with
          | none => rw [h2] at h; simp at h
          | some r2 =>
            obtain ⟨st2x, rest2⟩ := r2
            rw [h2] at h
            simp at h
            obtain ⟨rfl, rfl⟩ := h
            obtain ⟨hl1, hg1, hv1, hn1⟩ := ih st v0 st1 w1 h1
            obtain ⟨hl2, hg2, hv2, hn2⟩ := ihr st1 st2x rest2 h2
            refine ⟨le_trans hl1 hl2, ?_, ?_, ?_⟩
            · intro a ha
              rw [hg2 a (lt_of_lt_of_le ha hl1), hg1 a ha]
            · intro kv2 hm
              rcases List.mem_cons.mp hm with heq | hm2
              · subst heq
                exact hv1
              · exact valRefGe_mono hl1 (hv2 kv2 hm2)
            · intro j nd hj hnd
              by_cases hjlt : j < st1.length
              · rw [hg2 j hjlt] at hnd
                exact hn1 j nd hj hnd
              · exact nodeRefsGeB_mono hl1 (hn2 j nd (le_of_not_lt hjlt) hnd)
    have helems : ∀ xs st st2 xs2, cloneElems f st xs = some (st2, xs2) →
        st.length ≤ st2.length ∧
        (∀ a, a < st.length → st2[a]? = st[a]?) ∧
        (∀ x, x ∈ xs2 → valRefGe x st.length = true) ∧
        (∀ j nd, st.length ≤ j → st2[j]? = some nd →
          nodeRefsGeB nd st.length = true) := by
      intro xs
      induction xs with
      | nil =>
        intro st st2 xs2 h
        simp [cloneElems] at h
        obtain ⟨rfl, rfl⟩ := h
        exact ⟨le_refl _, fun a _ => rfl, by simp, fun j nd hj hnd => by
          rw [List.getElem?_eq_none hj] at hnd
          exact absurd hnd (by simp)⟩
      | cons x rest ihr =>
        intro st st2 xs2 h
        rw [cloneElems] at h
        cases h1 : cloneVal f st x with
        | none => rw [h1] at h; simp at h
        | some r1 =>
          obtain ⟨st1, w1⟩ := r1
          rw [h1] at h
          dsimp only at h
          cases h2 : cloneElems f st1 rest with
          | none => rw [h2] at h; simp at h
          | some r2 =>
            obtain ⟨st2x, rest2⟩ := r2
            rw [h2] at h
            simp at h
            obtain ⟨rfl, rfl⟩ := h
            obtain ⟨hl1, hg1, hv1, hn1⟩ := ih st x st1 w1 h1
            obtain ⟨hl2, hg2, hv2, hn2⟩ := ihr st1 st2x rest2 h2
            refine ⟨le_trans hl1 hl2, ?_, ?_, ?_⟩
            · intro a ha
              rw [hg2 a (lt_of_lt_of_le ha hl1), hg1 a ha]
            · intro x2 hm
              rcases List.mem_cons.mp hm with heq | hm2
              · subst heq
                exact hv1
              · exact valRefGe_mono hl1 (hv2 x2 hm2)
            · intro j nd hj hnd
              by_cases hjlt : j < st1.length
              · rw [hg2 j hjlt] at hnd
                exact hn1 j nd hj hnd
              · exact nodeRefsGeB_mono hl1 (hn2 j nd (le_of_not_lt hjlt) hnd)
    intro st v st2 v2 h
    cases v with
    | sscalar s =>
      rw [cloneVal] at h
      simp at h
      obtain ⟨rfl, rfl⟩ := h
      exact ⟨le_refl _, fun a _ => rfl, rfl, fun j nd hj hnd => by
        rw [List.getElem?_eq_none hj] at hnd
        exact absurd hnd (by simp)⟩
    | sref a =>
      rw [cloneVal] at h
      cases ha : st[a]? with
      | none => rw [ha] at h; simp at h
      | some nd0 =>
        rw [ha] at h
        cases nd0 with
        | smap es =>
          dsimp only at h
          cases h1 : cloneEntries f st es with
          | none => rw [h1] at h; simp at h
          | some r1 =>
            obtain ⟨st1, es2⟩ := r1
            rw [h1] at h
            simp at h
            obtain ⟨rfl, rfl⟩ := h
            obtain ⟨hl1, hg1, hv1, hn1⟩ := hent es st st1 es2 h1
            refine ⟨by simp; omega, ?_, ?_, ?_⟩
            · intro b hb
              rw [List.getElem?_append_left (lt_of_lt_of_le hb hl1)]
              exact hg1 b hb
            · simp [valRefGe]
              omega
            · intro j nd hj hnd
              by_cases hjlt : j < st1.length
              · rw [List.getElem?_append_left hjlt] at hnd
                exact hn1 j nd hj hnd
              · rw [List.getElem?_append_right (le_of_not_lt hjlt)] at hnd
                by_cases hje : j - st1.length < 1
                · have : nd = SNode.smap es2 := by
                    have hj0 : j - st1.length = 0 := by omega
                    rw [hj0] at hnd
                    exact (by simpa using hnd : SNode.smap es2 = nd).symm
                  subst this
                  simp only [nodeRefsGeB, List.all_eq_true]
                  exact fun kv hm => hv1 kv hm
                · rw [List.getElem?_eq_none (by simp; omega)] at hnd
                  exact absurd hnd (by simp)
        | sslice xs =>
          dsimp only at h
          cases h1 : cloneElems f st xs with
          | none => rw [h1] at h; simp at h
          | some r1 =>
            obtain ⟨st1, xs2⟩ := r1
            rw [h1] at h
            simp at h
            obtain ⟨rfl, rfl⟩ := h
            obtain ⟨hl1, hg1, hv1, hn1⟩ := helems xs st st1 xs2 h1
            refine ⟨by simp; omega, ?_, ?_, ?_⟩
            · intro b hb
              rw [List.getElem?_append_left (lt_of_lt_of_le hb hl1)]
              exact hg1 b hb
            · simp [valRefGe]
              omega
            · intro j nd hj hnd
              by_cases hjlt : j < st1.length
              · rw [List.getElem?_append_left hjlt] at hnd
                exact hn1 j nd hj hnd
              · rw [List.getElem?_append_right (le_of_not_lt hjlt)] at hnd
                by_cases hje : j - st1.length < 1
                · have : nd = SNode.sslice xs2 := by
                    have hj0 : j - st1.length = 0 := by omega
                    rw [hj0] at hnd
                    exact (by simpa using hnd : SNode.sslice xs2 = nd).symm
                  subst this
                  simp only [nodeRefsGeB, List.all_eq_true]
                  exact fun x hm => hv1 x hm
                · rw [List.getElem?_eq_none (by simp; omega)] at hnd
                  exact absurd hnd (by simp)

theorem resolveVal_frame :
    ∀ (f : Nat) (st stB : Store) (N : Nat) (v : SVal),
      (∀ a nd, a < N → st[a]? = some nd → nodeRefsLtB nd N = true) →
      (∀ a, a < N → stB[a]? = st[a]?) →
      valRefLt v N = true →
      resolveVal f stB v = resolveVal f st v := by
  intro f
  induction f with
  | zero =>
    intro st stB N v _ _ _
    rw [resolveVal, resolveVal]
  | succ f ih =>
    have hent : ∀ (es : List (String × SVal)) (st stB : Store) (N : Nat),
        (∀ a nd, a < N → st[a]? = some nd → nodeRefsLtB nd N = true) →
        (∀ a, a < N → stB[a]? = st[a]?) →
        (∀ kv, kv ∈ es → valRefLt kv.2 N = true) →
        resolveEntries f stB es = resolveEntries f st es := by
      intro es
      induction es with
      | nil => intro st stB N _ _ _; rw [resolveEntries, resolveEntries]
      | cons kv rest ihr =>
        intro st stB N hcl hag hv
        obtain ⟨k0, v0⟩ := kv
        rw [resolveEntries]
        conv_rhs => rw [resolveEntries]
        rw [ih st stB N v0 hcl hag (hv (k0, v0) (List.mem_cons_self _ _)),
          ihr st stB N hcl hag (fun kv2 hm => hv kv2 (List.mem_cons_of_mem _ hm))]
    have helems : ∀ (xs : List SVal) (st stB : Store) (N : Nat),
        (∀ a nd, a < N → st[a]? = some nd → nodeRefsLtB nd N = true) →
        (∀ a, a < N → stB[a]? = st[a]?) →
        (∀ x, x ∈ xs → valRefLt x N = true) →
        resolveElems f stB xs = resolveElems f st xs := by
      intro xs
      induction xs with
      | nil => intro st stB N _ _ _; rw [resolveElems, resolveElems]
      | cons x rest ihr =>
        intro st stB N hcl hag hv
        rw [resolveElems]
        conv_rhs => rw [resolveElems]
        rw [ih st stB N x hcl hag (hv x (List.mem_cons_self _ _)),
          ihr st stB N hcl hag (fun x2 hm => hv x2 (List.mem_cons_of_mem _ hm))]
    intro st stB N v hcl hag hv
    cases v with
    | sscalar s => rw [resolveVal, resolveVal]
    | sref a =>
      have haN : a < N := by simpa [valRefLt] using hv
      rw [resolveVal]
      conv_rhs => rw [resolveVal]
      rw [hag a haN]
      cases hnd : st[a]? with
      | none => rfl
      | some nd =>
        have hndlt := hcl a nd haN hnd
        cases nd with
        | smap es =>
          dsimp only
          rw [hent es st stB N hcl hag (by
            simpa [nodeRefsLtB, List.all_eq_true] using hndlt)]
        | sslice xs =>
          dsimp only
          rw [helems xs st stB N hcl hag (by
            simpa [nodeRefsLtB, List.all_eq_true] using hndlt)]

theorem store_extends_of (st st2 : Store) (hlen : st.length ≤ st2.length)
    (hagree : ∀ a, a < st.length → st2[a]? = st[a]?) :
    st2 = st ++ st2.drop st.length := by
  apply List.ext_getElem?
  intro n
  by_cases hn : n < st.length
  · rw [List.getElem?_append_left hn, hagree n hn]
  · rw [List.getElem?_append_right (le_of_not_lt hn), List.getElem?_drop]
    congr 1
    omega

/-- C3: `reflection.Clone` of a value of the configuration tree (the
    behavior of `Config.Get` / `Config.Values`) only appends fresh
    containers to the heap, the returned value and every container it
    can reach live entirely at fresh addresses (it shares no mapping or
    sequence identity with the pre-existing internal tree), and mutating
    any fresh address — in particular any mapping or sequence reachable
    from the returned value — leaves the resolution of every
    internal-tree value, hence the result of any subsequent `Get`,
    `Find` or `Values`, unchanged. -/
theorem clone_returns_independent_copy :
    ∀ (f : Nat) (st : Store) (v : SVal) (st2 : Store) (v2 : SVal),
      closedPreB st st.length = true →
      valRefLt v st.length = true →
      cloneVal f st v = some (st2, v2) →
      st2 = st ++ st2.drop st.length ∧
      valRefGe v2 st.length = true ∧
      (∀ j nd, st.length ≤ j → st2[j]? = some nd →
        nodeRefsGeB nd st.length = true) ∧
      (∀ f2 a nd u, st.length ≤ a → valRefLt u st.length = true →
        resolveVal f2 (storeSet st2 a nd) u = resolveVal f2 st u) := by
  intro f st v st2 v2 hcl hv h
  obtain ⟨hlen, hag, hge, hnew⟩ := cloneVal_inv f st v st2 v2 h
  have hclp : ∀ a nd, a < st.length → st[a]? = some nd →
      nodeRefsLtB nd st.length = true := by
    intro a nd _ hnd
    simp only [closedPreB, List.take_length, List.all_eq_true] at hcl
    exact hcl nd (List.getElem?_mem hnd)
  refine ⟨store_extends_of st st2 hlen hag, hge, hnew, ?_⟩
  intro f2 a nd u ha hu
  apply resolveVal_frame f2 st (storeSet st2 a nd) st.length u hclp ?_ hu
  intro b hb
  rw [storeSet, List.getElem?_set_ne (by omega), hag b hb]

/-- Witness for C3: cloning the one-node tree `{host: "a"}` allocates a
    fresh container, and overwriting the clone's container leaves the
    original resolution unchanged. -/
theorem clone_returns_independent_copy_witness :
    cloneVal 3 [SNode.smap [("host", SVal.sscalar "a")]] (SVal.sref 0) =
      some ([SNode.smap [("host", SVal.sscalar "a")],
             SNode.smap [("host", SVal.sscalar "a")]], SVal.sref 1) ∧
    resolveVal 2
        (storeSet [SNode.smap [("host", SVal.sscalar "a")],
                   SNode.smap [("host", SVal.sscalar "a")]] 1 (SNode.smap []))
        (SVal.sref 0) =
      resolveVal 2 [SNode.smap [("host", SVal.sscalar "a")]] (SVal.sref 0) := by
  have hc : cloneVal 3 [SNode.smap [("host", SVal.sscalar "a")]] (SVal.sref 0) =
      some ([SNode.smap [("host", SVal.sscalar "a")],
             SNode.smap [("host", SVal.sscalar "a")]], SVal.sref 1) := by
    rw [cloneVal]
    simp [cloneEntries, cloneVal]
  refine ⟨hc, ?_⟩
  exact (clone_returns_independent_copy 3 _ (SVal.sref 0) _ (SVal.sref 1)
    (by decide) (by decide) hc).2.2.2 2 1 (SNode.smap []) (SVal.sref 0)
    (by decide) (by decide)

/-! ## Struct-binder coercion theorems -/

/-- C6: binding into a signed integer field of width `w` first converts
    the source (any numeric value or decimal string) to a 64-bit signed
    integer; when that conversion succeeds the value must fit the target
    width, else the result is an overflow error naming the target kind
    and the offending value.  In particular the decimal string `"99999"`
    overflows an 8-bit signed field while `"100"` binds to 100. -/
theorem int_bind_overflow_guard :
    (∀ (w : IW) (v : GoVal) (i : Int), toInt64 v = .ok i →
      setBasicKind (.kint w) v =
        (if withinIntRange i (bitsOfIW w) then .ok (.rvi i)
         else .error (.intOverflow (kindNameInt w) i))) ∧
    setBasicKind (.kint .i8) (.vstr "99999") =
      .error (.intOverflow "int8" 99999) ∧
    setBasicKind (.kint .i8) (.vstr "100") = .ok (.rvi 100) := by
  refine ⟨?_, ?_, ?_⟩
  · intro w v i h
    simp [setBasicKind, h]
  · rfl
  · rfl

/-- Witness for C6: the general overflow rule applied to the decimal
    string `"99999"` and an 8-bit signed target. -/
theorem int_bind_overflow_guard_witness :
    setBasicKind (.kint .i8) (.vstr "99999") =
      (if withinIntRange 99999 (bitsOfIW .i8) then .ok (.rvi 99999)
       else .error (.intOverflow (kindNameInt .i8) 99999)) :=
  int_bind_overflow_guard.1 .i8 (.vstr "99999") 99999 rfl

/-- C7 counterexample: the source has no `float32` arm in `toUint64`, so
    a negative `float32` source is rejected with the generic
    cannot-convert error rather than the dedicated negative-value error
    the claim promises for every negative floating-point source. -/
theorem uint_negative_float32_counterexample :
    toUint64 (.vfloat .f32 (-1)) = .error (.cannotConvertToUint64 "float32") ∧
    toUint64 (.vfloat .f32 (-1)) ≠ .error (.negFloat (-1)) := by
  refine ⟨rfl, ?_⟩
  intro h
  rw [show toUint64 (.vfloat .f32 (-1)) =
    .error (.cannotConvertToUint64 "float32") from rfl] at h
  simp at h

/-- C7 amended: binding into an unsigned field rejects every negative
    signed-integer source with the width-specific negative-value error
    (which carries the source type and value), rejects a negative 64-bit
    float with the dedicated negative-float error, and rejects every
    `float32` source — negative or not — with the generic
    cannot-convert-to-uint64 error naming the source type; in every case
    the destination field is not assigned (no value is produced). -/
theorem uint_rejects_negative_sources :
    (∀ (w u : IW) (i : Int), i < 0 →
      setBasicKind (.kuint u) (.vint w i) = .error (.negInt w i)) ∧
    (∀ (u : IW) (q : Rat), q < 0 →
      setBasicKind (.kuint u) (.vfloat .f64 q) = .error (.negFloat q)) ∧
    (∀ (u : IW) (q : Rat),
      setBasicKind (.kuint u) (.vfloat .f32 q) =
        .error (.cannotConvertToUint64 "float32")) := by
  refine ⟨?_, ?_, ?_⟩
  · intro w u i h
    simp [setBasicKind, toUint64, h]
  · intro u q h
    simp [setBasicKind, toUint64, h]
  · intro u q
    simp [setBasicKind, toUint64, typeName, kindNameFloat]

/-- Witness for C7's amended rule: `-1` as a platform `int` into a
    `uint8` destination fails with the dedicated negative-int error. -/
theorem uint_rejects_negative_sources_witness :
    setBasicKind (.kuint .i8) (.vint .iw (-1)) =
      .error (.negInt .iw (-1)) :=
  uint_rejects_negative_sources.1 .iw .i8 (-1) (by decide)

/-! ## Field-descriptor (embedded flattening) theorems -/

/-- C4 counterexample: with the embedded record declared before the
    outer field and both contributing the untagged key `"name"`, the
    descriptor keeps the embedded field's mapping (path `[0, 0]` through
    the embedding), not the outer field's (`[1]`): the outer field does
    not take precedence regardless of declaration order. -/
theorem outer_field_not_always_precedent :
    lookupFM
      (buildStructFieldMap
        [.fld "E" "" true true
          (.rstruct [.fld "Name" "" true false (.rbasic .kstring)]),
         .fld "Name" "" true false (.rbasic .kstring)]) "name" =
      some ⟨"Name", [0, 0]⟩ ∧
    (⟨"Name", [0, 0]⟩ : FieldInfo) ≠ ⟨"Name", [1]⟩ := by
  constructor
  · simp [buildStructFieldMap, buildSFMRec, insertIfAbsentFM, insertOverFM,
      lookupFM, goToLowerStr]
  · decide

/-- C4 amended: fields of an embedded record are flattened into the
    outer namespace and bindable by their own lower-cased name at the
    outer level; on a collision between an outer and an embedded field
    under the same untagged key, the first registration in depth-first
    declaration order wins (so the outer field takes precedence exactly
    when it is declared before the embedded record); a tag-declared key,
    by contrast, overwrites an earlier registration under the same key. -/
theorem embedded_flattening_first_registered_wins :
    (∀ (en nm : String) (k k2 : BKind),
      lookupFM
        (buildStructFieldMap
          [.fld en "" true true (.rstruct [.fld nm "" true false (.rbasic k)]),
           .fld nm "" true false (.rbasic k2)]) (goToLowerStr nm) =
        some ⟨nm, [0, 0]⟩) ∧
    (∀ (en nm : String) (k k2 : BKind),
      lookupFM
        (buildStructFieldMap
          [.fld nm "" true false (.rbasic k2),
           .fld en "" true true (.rstruct [.fld nm "" true false (.rbasic k)])])
        (goToLowerStr nm) = some ⟨nm, [0]⟩) ∧
    lookupFM
      (buildStructFieldMap
        [.fld "E" "" true true
          (.rstruct [.fld "A" "addr" true false (.rbasic .kstring)]),
         .fld "B" "addr" true false (.rbasic .kstring)]) "addr" =
      some ⟨"B", [1]⟩ := by
  refine ⟨?_, ?_, ?_⟩
  · intro en nm k k2
    simp [buildStructFieldMap, buildSFMRec, insertIfAbsentFM, insertOverFM,
      lookupFM]
  · intro en nm k k2
    simp [buildStructFieldMap, buildSFMRec, insertIfAbsentFM, insertOverFM,
      lookupFM]
  · simp [buildStructFieldMap, buildSFMRec, insertIfAbsentFM, insertOverFM,
      lookupFM, tagHead, goSplit, goSplitL, goSplitF, findOcc, leadsChar,
      goToLowerStr]

/-! ## Unbind/bind round-trip theorems -/

/-- C5 (evaluation at the failing input): a record with the single
    untagged exported field `Port` holding 7 unbinds to the mapping
    `{"Port": 7}` (verbatim field name), but `Bind` of that mapping into
    a zeroed record of the same type silently leaves the field at 0 —
    the top-level descriptor lookup is exact and only knows the
    lower-cased key `"port"` — so the round-trip loses the value; the
    nested-struct arm of `setValue`, which does fall back to the
    lower-cased key, would have assigned 7. -/
theorem bind_unbind_roundtrip_drops_untagged_field :
    goUnbind [.fld "Port" "" true false (.rbasic (.kint .iw))]
      (.rvstruct [.rvi 7]) = [("Port", .vint .iw 7)] ∧
    goBind [("Port", .vint .iw 7)]
      [.fld "Port" "" true false (.rbasic (.kint .iw))]
      (.rvstruct [.rvi 0]) = .ok (.rvstruct [.rvi 0]) ∧
    (.rvstruct [.rvi 0] : RVal) ≠ .rvstruct [.rvi 7] ∧
    bindStructEntries [.fld "Port" "" true false (.rbasic (.kint .iw))]
      (.rvstruct [.rvi 0]) [("Port", .vint .iw 7)] = .ok (.rvstruct [.rvi 7]) := by
  refine ⟨?_, ?_, ?_, ?_⟩
  · simp [goUnbind, unbindStructFields, goValOfField, basicToGo, keyOf,
      tagHead, insertGo]
  · simp +decide [goBind, bindLoop, buildStructFieldMap, buildSFMRec,
      insertIfAbsentFM, insertOverFM, lookupFM, goToLowerStr]
  · simp
  · simp +decide [bindStructEntries, buildStructFieldMap, buildSFMRec,
      insertIfAbsentFM, insertOverFM, lookupFM, goToLowerStr, tyAtPath,
      getAtPath, setAtPath, setValueR, isVNil, asMap, setBasicKind, toInt64,
      withinIntRange, bitsOfIW, fty]

end GCfg
